import Mathlib

/-!
ExtractIPA: the sequential ZIP cursor of `src/main.c`.

A shallow embedding of the scanner (`zip_skip_until_next_entry`), the header
decoder (`zip_get_next_entry`), the entry consumers (`close_entry`,
`extract_current`) and the driver loop of `main`, followed by the properties
established about them.

Modelling conventions
* The archive is an unchanging list of bytes `src`; the `FILE*` of the parser is
  its file position `fp`.  `fread` delivers the bytes that exist from the
  position on, `_fseeki64` to a negative offset fails and leaves the position.
* Loops that the C code does not bound (`while (1)`, `do … while`) carry a fuel
  argument; running out of fuel is the outcome `Run.timeout`.
* Behaviour that has no definite outcome (a window of the scan buffer that the
  read did not fill, a store outside the `calloc`ed parser record, a byte other
  than 0 or 1 left in the `bool` member, indexing before the start of the name)
  is the outcome `Run.undef`; a failed `assert` is `Run.abort`.
* The parser record is laid out with 8-byte pointers and naturally aligned
  members: `filename` at offset 8, `comp_size` at 264, `uncomp_size` at 272,
  `compression`, `name_length`, `extra_length`, `flags` at 280 to 287,
  `data_start` at 288, `header_start` at 296, `consumed` at 304, size 312.  A
  name that does not fit `filename` is written on over the members that follow.
* zlib is an external collaborator: `InflateEngine` is a parameter.
-/

namespace ExtractIPA

/-! ## Constants (lines 27-37) -/

abbrev Byte := UInt8

def LOCAL_HEADER_SIGNATURE : Nat := 0x04034b50
def CENTRAL_HEADER_SIGNATURE : Nat := 0x02014b50
def END_OF_CENTRAL_DIRECTORY_SIGNATURE : Nat := 0x06054b50
def CENTRAL_HEADER_DIGITAL_SIGNATURE : Nat := 0x05054b50
def ARCHIVE_EXTRA_DATA_SIGNATURE : Nat := 0x07064b50
def ZIP64_CENTRAL_FILE_HEADER_SIGNATURE : Nat := 0x06064b50
def BUFFER_SIZE : Nat := 4096
def COMPRESSION_STORE : Nat := 0
def COMPRESSION_DEFLATE : Nat := 8
def FLAG_DATA_DESCRIPTOR : Nat := 0x08

/-- Two to the 64: the modulus of `size_t` and `uint64_t` arithmetic. -/
def SIZE_MOD : Nat := 2 ^ 64

/-! ## Outcomes -/

/-- Outcome of running a piece of the program. -/
inductive Run (α : Type) where
  | ret (a : α) : Run α
  | undef : Run α
  | abort : Run α
  | timeout : Run α
  deriving DecidableEq, Repr

/-! ## Byte source -/

/-- Little-endian `uint16_t` made of two bytes. -/
def le16 (b0 b1 : Byte) : Nat := b0.toNat + 256 * b1.toNat

/-- Little-endian `uint32_t` made of four bytes (the `memcpy` of line 101). -/
def le32 (b0 b1 b2 b3 : Byte) : Nat :=
  b0.toNat + 256 * b1.toNat + 65536 * b2.toNat + 16777216 * b3.toNat

/-- The bytes `fread` delivers when asked for `n` bytes at position `pos`. -/
def fread (src : List Byte) (pos n : Nat) : List Byte := (src.drop pos).take n

/-- Position after `_fseeki64(fp, off, SEEK_SET)`: a negative offset is refused. -/
def fseek_set (pos : Nat) (off : Int) : Nat := if off < 0 then pos else off.toNat

/-! ## Parser state (lines 41-81) -/

/-- The packed 30-byte local file header record. -/
structure LocalFileHeader where
  signature : Nat
  version : Nat
  flags : Nat
  compression : Nat
  mod_time : Nat
  mod_date : Nat
  crc32 : Nat
  compressed_size : Nat
  uncompressed_size : Nat
  name_length : Nat
  extra_length : Nat
  deriving DecidableEq, Repr

/-- Byte `i` of a record that was read (0 when absent). -/
def byteAt (raw : List Byte) (i : Nat) : Byte := raw.getD i 0

/-- The fields of the record `fread(&lfh, sizeof(lfh), 1, fp)` filled. -/
def decode_lfh (raw : List Byte) : LocalFileHeader :=
  { signature := le32 (byteAt raw 0) (byteAt raw 1) (byteAt raw 2) (byteAt raw 3)
    version := le16 (byteAt raw 4) (byteAt raw 5)
    flags := le16 (byteAt raw 6) (byteAt raw 7)
    compression := le16 (byteAt raw 8) (byteAt raw 9)
    mod_time := le16 (byteAt raw 10) (byteAt raw 11)
    mod_date := le16 (byteAt raw 12) (byteAt raw 13)
    crc32 := le32 (byteAt raw 14) (byteAt raw 15) (byteAt raw 16) (byteAt raw 17)
    compressed_size := le32 (byteAt raw 18) (byteAt raw 19) (byteAt raw 20) (byteAt raw 21)
    uncompressed_size := le32 (byteAt raw 22) (byteAt raw 23) (byteAt raw 24) (byteAt raw 25)
    name_length := le16 (byteAt raw 26) (byteAt raw 27)
    extra_length := le16 (byteAt raw 28) (byteAt raw 29) }

/-- Parser state; `fp` is the file position of the archive stream and
`filename` the 256-byte name array. -/
structure ZipParser where
  fp : Nat
  filename : List Byte
  comp_size : Nat
  uncomp_size : Nat
  compression : Nat
  name_length : Nat
  extra_length : Nat
  flags : Nat
  data_start : Int
  header_start : Int
  consumed : Bool
  deriving DecidableEq, Repr

/-- State after a successful `zip_open`: `calloc` zeroes, then both offsets are -1. -/
def zip_open : ZipParser :=
  { fp := 0
    filename := List.replicate 256 0
    comp_size := 0
    uncomp_size := 0
    compression := 0
    name_length := 0
    extra_length := 0
    flags := 0
    data_start := -1
    header_start := -1
    consumed := false }

/-- The name as the C string the driver reads: the bytes before the first NUL. -/
def c_str (buf : List Byte) : List Byte := buf.takeWhile (fun b => b != 0)

/-! ## Layout of the parser record (lines 57-69) -/

/-- Size of the array `filename`. -/
def FILENAME_SIZE : Nat := 256

/-- Offset of `uncomp_size`, counted from the start of `filename`. -/
def OFFSET_UNCOMP_SIZE : Nat := 264

/-- Offset of `header_start`, counted from the start of `filename`. -/
def OFFSET_HEADER_START : Nat := 288

/-- Offset of `consumed`, counted from the start of `filename`. -/
def OFFSET_CONSUMED : Nat := 296

/-- Number of bytes of the record from the start of `filename` to its end
(`sizeof(ZipParser)` is 312 and `filename` lies at offset 8). -/
def RECORD_TAIL_SIZE : Nat := 304

/-- The `w` low-order bytes of `v`, least significant first: an unsigned
little-endian object of `w` bytes. -/
def le_bytes : Nat → Nat → List Byte
  | 0, _ => []
  | w + 1, v => UInt8.ofNat (v % 256) :: le_bytes w (v / 256)

/-- The value of an unsigned little-endian object. -/
def le_nat : List Byte → Nat
  | [] => 0
  | b :: bs => b.toNat + 256 * le_nat bs

/-- The 8 bytes of an `int64_t` (two's complement). -/
def int64_bytes (x : Int) : List Byte := le_bytes 8 (x % 18446744073709551616).toNat

/-- The `int64_t` that 8 bytes hold. -/
def int64_of_bytes (bs : List Byte) : Int :=
  if le_nat bs < 9223372036854775808 then (le_nat bs : Int)
  else (le_nat bs : Int) - 18446744073709551616

/-- The bytes of the members that follow `filename` in the record, up to and
including `consumed` (the 7 bytes of padding after it hold no member). -/
def record_after_filename (zp : ZipParser) : List Byte :=
  le_bytes 8 zp.comp_size ++ (le_bytes 8 zp.uncomp_size ++ (le_bytes 2 zp.compression ++
    (le_bytes 2 zp.name_length ++ (le_bytes 2 zp.extra_length ++ (le_bytes 2 zp.flags ++
      (int64_bytes zp.data_start ++ (int64_bytes zp.header_start ++
        [if zp.consumed then 1 else 0])))))))

/-- The bytes of the record from the start of `filename` on: what a pointer to
`filename` reaches inside the record. -/
def record_tail (zp : ZipParser) : List Byte := zp.filename ++ record_after_filename zp

/-! ## Signature scanner (lines 83-122) -/

/-- What the `for` loop over one chunk ends with. -/
inductive Hit where
  | header (i : Nat) : Hit
  | stop : Hit
  | miss : Hit
  | outside : Hit
  deriving DecidableEq, Repr

/-- The five signatures that end the scan with 0 (lines 110-114). -/
def is_terminator (signature : Nat) : Bool :=
  signature == CENTRAL_HEADER_SIGNATURE ||
  signature == END_OF_CENTRAL_DIRECTORY_SIGNATURE ||
  signature == CENTRAL_HEADER_DIGITAL_SIGNATURE ||
  signature == ARCHIVE_EXTRA_DATA_SIGNATURE ||
  signature == ZIP64_CENTRAL_FILE_HEADER_SIGNATURE

/-- The `for` loop of lines 99-117 with `k` iterations left: the list is the
read part of the buffer from `buffer + i` on.  A window that is not inside the
bytes just read is reported as `Hit.outside`. -/
def scan_for : List Byte → Nat → Nat → Hit
  | _, _, 0 => Hit.miss
  | b0 :: b1 :: b2 :: b3 :: rest, i, k + 1 =>
    let signature := le32 b0 b1 b2 b3
    if signature = LOCAL_HEADER_SIGNATURE then Hit.header i
    else if is_terminator signature then Hit.stop
    else scan_for (b1 :: b2 :: b3 :: rest) (i + 1) k
  | _, _, _ + 1 => Hit.outside

/-- Number of iterations `i < read_size - 3` allows from 0, in `size_t` arithmetic. -/
def scan_bound (read_size : Nat) : Nat := (read_size + SIZE_MOD - 3) % SIZE_MOD

/-- Function `zip_skip_until_next_entry`: the return value and the parser after it. -/
def zip_skip_until_next_entry (src : List Byte) : Nat → ZipParser → Run (Nat × ZipParser)
  | 0, _ => Run.timeout
  | fuel + 1, zp =>
    let start := zp.fp
    let buffer := fread src zp.fp BUFFER_SIZE
    let read_size := buffer.length
    let zp1 := { zp with fp := zp.fp + read_size }
    if read_size = 0 then Run.ret (0, zp1)
    else
      match scan_for buffer 0 (scan_bound read_size) with
      | Hit.header i => Run.ret (1, { zp1 with header_start := (start + i : Nat) })
      | Hit.stop => Run.ret (0, zp1)
      | Hit.outside => Run.undef
      | Hit.miss =>
        zip_skip_until_next_entry src fuel
          { zp1 with fp := fseek_set zp1.fp ((start + read_size : Nat) - 3) }

/-! ## reset_entry (lines 124-135) -/

/-- Function `reset_entry`. -/
def reset_entry (zp : ZipParser) : ZipParser :=
  { zp with
    filename := List.replicate 256 0
    comp_size := 0
    uncomp_size := 0
    compression := 0
    name_length := 0
    extra_length := 0
    flags := 0
    data_start := 0
    header_start := 0
    consumed := false }

/-! ## The inflate engine (zlib, external) -/

/-- Return codes of zlib. -/
inductive ZRet where
  | Z_OK : ZRet
  | Z_STREAM_END : ZRet
  | Z_NEED_DICT : ZRet
  | Z_ERRNO : ZRet
  | Z_STREAM_ERROR : ZRet
  | Z_DATA_ERROR : ZRet
  | Z_MEM_ERROR : ZRet
  | Z_BUF_ERROR : ZRet
  | Z_VERSION_ERROR : ZRet
  deriving DecidableEq, Repr

/-- What one call of the engine does: its next internal state, how many input
bytes it consumed, the bytes it produced and its return code. -/
structure InflateCall (σ : Type) where
  state : σ
  used : Nat
  out : List Byte
  ret : ZRet

/-- A deterministic raw-DEFLATE decoder: `init` is the state after
`inflateInit2(&strm, -MAX_WBITS)`, `call s input avail_out` is one
`inflate(&strm, Z_NO_FLUSH)` on the `avail_in` bytes `input`. -/
structure InflateEngine where
  State : Type
  init : State
  call : State → List Byte → Nat → InflateCall State

/-- The fields of `z_stream` the program touches: `next_in` holds the `avail_in`
bytes not yet consumed; `total_in` is zlib's own count of consumed bytes (kept
unbounded here). -/
structure z_stream (σ : Type) where
  next_in : List Byte
  avail_out : Nat
  total_in : Nat
  state : σ

/-- Field `avail_in` of the stream. -/
def z_stream.avail_in {σ : Type} (strm : z_stream σ) : Nat := strm.next_in.length

/-- One `inflate(&strm, Z_NO_FLUSH)`: the updated stream, the bytes put at
`next_out`, the return code.  The engine cannot consume more than `avail_in`
bytes nor produce more than `avail_out`. -/
def inflate (E : InflateEngine) (strm : z_stream E.State) :
    z_stream E.State × List Byte × ZRet :=
  let r := E.call strm.state strm.next_in strm.avail_out
  let used := min r.used strm.next_in.length
  let produced := r.out.take strm.avail_out
  ({ next_in := strm.next_in.drop used
     avail_out := strm.avail_out - produced.length
     total_in := strm.total_in + used
     state := r.state }, produced, r.ret)

/-- The stream after `inflateInit2`. -/
def inflateInit2 (E : InflateEngine) : z_stream E.State :=
  { next_in := [], avail_out := 0, total_in := 0, state := E.init }

/-- Locals of a decoding loop when it is left. -/
structure InflateRun (σ : Type) where
  fp : Nat
  strm : z_stream σ
  total_in_size : Nat
  ret : ZRet
  written : List Byte

/-! ## close_entry (lines 138-191) -/

/-- Inner `do … while (strm.avail_out == 0)` of `close_entry` (lines 166-173). -/
def close_inner (E : InflateEngine) : Nat → z_stream E.State → Run (z_stream E.State × ZRet)
  | 0, _ => Run.timeout
  | fuel + 1, strm =>
    match inflate E { strm with avail_out := BUFFER_SIZE } with
    | (strm1, _, ret) =>
      if ret = ZRet.Z_STREAM_ERROR then Run.ret (strm1, ret)
      else if strm1.avail_out = 0 then close_inner E fuel strm1
      else Run.ret (strm1, ret)

/-- Outer `do … while (ret != Z_STREAM_END)` of `close_entry` (lines 160-177). -/
def close_outer (E : InflateEngine) (src : List Byte) :
    Nat → Nat → z_stream E.State → Nat → Run (InflateRun E.State)
  | 0, _, _, _ => Run.timeout
  | fuel + 1, fp, strm, total_in_size =>
    let inb := fread src fp BUFFER_SIZE
    let read_int_size := inb.length
    match close_inner E fuel { strm with next_in := inb } with
    | Run.ret (strm1, ret) =>
      let total1 := total_in_size + (read_int_size - strm1.avail_in)
      if ret ≠ ZRet.Z_STREAM_END then close_outer E src fuel (fp + read_int_size) strm1 total1
      else Run.ret
        { fp := fp + read_int_size, strm := strm1, total_in_size := total1, ret := ret,
          written := [] }
    | Run.undef => Run.undef
    | Run.abort => Run.abort
    | Run.timeout => Run.timeout

/-- Function `close_entry`. -/
def close_entry (E : InflateEngine) (src : List Byte) (fuel : Nat) (zp : ZipParser) :
    Run ZipParser :=
  if zp.compression = COMPRESSION_DEFLATE then
    let zp1 := { zp with fp := fseek_set zp.fp zp.data_start }
    match close_outer E src fuel zp1.fp (inflateInit2 E) 0 with
    | Run.ret r =>
      Run.ret (reset_entry
        { zp1 with fp := fseek_set r.fp (zp1.data_start + (r.total_in_size : Int)) })
    | Run.undef => Run.undef
    | Run.abort => Run.abort
    | Run.timeout => Run.timeout
  else if zp.compression = COMPRESSION_STORE then
    Run.ret (reset_entry
      { zp with fp := fseek_set zp.fp (zp.data_start + (zp.comp_size : Int)) })
  else Run.ret (reset_entry zp)

/-! ## zip_get_next_entry (lines 196-245) -/

/-- The bytes at `filename` after `fread(zp->filename, name_length, 1, fp)`
delivered `name` and `filename[name_length] = 0` was stored. -/
def store_name (filename name : List Byte) (name_length : Nat) : List Byte :=
  (name ++ filename.drop name.length).set name_length 0

/-- The condition of the `assert` of line 241. -/
def store_assertion (flags : Nat) : Bool := flags != FLAG_DATA_DESCRIPTOR

/-- Lines 205-244 of `zip_get_next_entry`: decoding the header the scan found.
Lines 217-218 check no length: they write `name_length` bytes and a NUL from
the start of `filename` on, and `mem` is the record from there on after the two
lines.  A NUL stored past the end of the `calloc`ed record (what lies there is
not the parser's), or a byte other than 0 or 1 left in the `bool` member
`consumed` (what `consumed == false` then yields differs between compilers), has
no definite outcome.  Of the members the write can reach, `uncomp_size`,
`header_start` and `consumed` are not assigned by every path below and keep what
the write left in them; the others are assigned in lines 224-236. -/
def read_header (src : List Byte) (zp : ZipParser) : Run (Nat × ZipParser) :=
  let zp1 := { zp with fp := fseek_set zp.fp zp.header_start }
  let raw := fread src zp1.fp 30
  let zp2 := { zp1 with fp := zp1.fp + raw.length }
  if raw.length ≠ 30 then Run.ret (0, zp2)
  else
    let lfh := decode_lfh raw
    if lfh.signature ≠ LOCAL_HEADER_SIGNATURE then Run.ret (0, zp2)
    else
      let name := fread src zp2.fp lfh.name_length
      let mem := store_name (record_tail zp2) name lfh.name_length
      if RECORD_TAIL_SIZE ≤ lfh.name_length then Run.undef
      else if OFFSET_CONSUMED ≤ lfh.name_length ∧ 1 < (byteAt mem OFFSET_CONSUMED).toNat then
        Run.undef
      else
        let fp1 := zp2.fp + name.length + lfh.extra_length
        let zp3 : ZipParser :=
          { zp2 with
            fp := fp1
            filename := mem.take FILENAME_SIZE
            uncomp_size :=
              if lfh.name_length < OFFSET_UNCOMP_SIZE then zp2.uncomp_size
              else le_nat ((mem.drop OFFSET_UNCOMP_SIZE).take 8)
            header_start :=
              if lfh.name_length < OFFSET_HEADER_START then zp2.header_start
              else int64_of_bytes ((mem.drop OFFSET_HEADER_START).take 8)
            consumed :=
              if lfh.name_length < OFFSET_CONSUMED then zp2.consumed
              else byteAt mem OFFSET_CONSUMED != 0
            compression := lfh.compression
            flags := lfh.flags
            name_length := lfh.name_length
            extra_length := lfh.extra_length
            data_start := (fp1 : Int) }
        let zp4 : ZipParser :=
          if zp3.flags &&& FLAG_DATA_DESCRIPTOR ≠ 0 ∧ lfh.compressed_size = 0 then
            { zp3 with comp_size := 0 }
          else
            { zp3 with comp_size := lfh.compressed_size, uncomp_size := lfh.uncompressed_size }
        if zp4.compression = COMPRESSION_STORE ∧ store_assertion zp4.flags = false then Run.abort
        else Run.ret (1, zp4)

/-- Lines 197-200 of `zip_get_next_entry`: an entry that was not consumed is closed. -/
def close_pending (E : InflateEngine) (src : List Byte) (fuel : Nat) (zp : ZipParser) :
    Run ZipParser :=
  if zp.consumed = false ∧ zp.header_start ≠ -1 then close_entry E src fuel zp
  else Run.ret zp

/-- Function `zip_get_next_entry`: the return value and the parser after it. -/
def zip_get_next_entry (E : InflateEngine) (src : List Byte) (fuel : Nat) (zp : ZipParser) :
    Run (Nat × ZipParser) :=
  match close_pending E src fuel zp with
  | Run.ret zp1 =>
    match zip_skip_until_next_entry src fuel zp1 with
    | Run.ret (0, zp2) => Run.ret (0, zp2)
    | Run.ret (_, zp2) => read_header src zp2
    | Run.undef => Run.undef
    | Run.abort => Run.abort
    | Run.timeout => Run.timeout
  | Run.undef => Run.undef
  | Run.abort => Run.abort
  | Run.timeout => Run.timeout

/-! ## extract_current (lines 248-313) -/

/-- Inner `do … while (strm.avail_out == 0)` of `extract_current` (lines 288-297);
`written` collects what `fwrite` put into the output file. -/
def extract_inner (E : InflateEngine) :
    Nat → z_stream E.State → List Byte → Run (z_stream E.State × ZRet × List Byte)
  | 0, _, _ => Run.timeout
  | fuel + 1, strm, written =>
    match inflate E { strm with avail_out := BUFFER_SIZE } with
    | (strm1, produced, ret) =>
      if ret = ZRet.Z_STREAM_ERROR then Run.ret (strm1, ret, written)
      else if strm1.avail_out = 0 then extract_inner E fuel strm1 (written ++ produced)
      else Run.ret (strm1, ret, written ++ produced)

/-- Outer `do … while (ret != Z_STREAM_END)` of `extract_current` (lines 282-300). -/
def extract_outer (E : InflateEngine) (src : List Byte) :
    Nat → Nat → z_stream E.State → Nat → List Byte → Run (InflateRun E.State)
  | 0, _, _, _, _ => Run.timeout
  | fuel + 1, fp, strm, total_in_size, written =>
    let inb := fread src fp BUFFER_SIZE
    let read_int_size := inb.length
    match extract_inner E fuel { strm with next_in := inb } written with
    | Run.ret (strm1, ret, written1) =>
      let total1 := total_in_size + (read_int_size - strm1.avail_in)
      if ret ≠ ZRet.Z_STREAM_END then
        extract_outer E src fuel (fp + read_int_size) strm1 total1 written1
      else Run.ret
        { fp := fp + read_int_size, strm := strm1, total_in_size := total1, ret := ret,
          written := written1 }
    | Run.undef => Run.undef
    | Run.abort => Run.abort
    | Run.timeout => Run.timeout

/-- The `malloc(comp_size)` buffer after `fread` delivered `data` into it:
the bytes the read did not fill keep what the heap held (`garbage`). -/
def store_buffer (garbage : Nat → Byte) (data : List Byte) (comp_size : Nat) : List Byte :=
  data ++ (List.range' data.length (comp_size - data.length)).map garbage

/-- Function `extract_current`: the return value, the parser after it and the
bytes written to the output file.  `out_ok` tells whether `fopen(output_path)`
succeeded. -/
def extract_current (E : InflateEngine) (src : List Byte) (garbage : Nat → Byte) (fuel : Nat)
    (zp : ZipParser) (out_ok : Bool) : Run (Nat × ZipParser × List Byte) :=
  if out_ok = false then Run.ret (0, zp, [])
  else
    let zp1 := { zp with fp := fseek_set zp.fp zp.data_start }
    if zp1.compression = COMPRESSION_STORE then
      let zp2 := { zp1 with fp := fseek_set zp1.fp zp1.data_start }
      let data := fread src zp2.fp zp2.comp_size
      Run.ret (1, { zp2 with fp := zp2.fp + data.length, consumed := true },
        store_buffer garbage data zp2.comp_size)
    else if zp1.compression = COMPRESSION_DEFLATE then
      let zp2 := { zp1 with fp := fseek_set zp1.fp zp1.data_start }
      match extract_outer E src fuel zp2.fp (inflateInit2 E) 0 [] with
      | Run.ret r =>
        Run.ret (if r.ret = ZRet.Z_STREAM_END then 1 else 0,
          { zp2 with
            fp := fseek_set r.fp (zp2.data_start + (r.total_in_size : Int))
            consumed := true }, r.written)
      | Run.undef => Run.undef
      | Run.abort => Run.abort
      | Run.timeout => Run.timeout
    else Run.ret (0, zp1, [])

/-! ## The driver loop of main (lines 423-438) -/

/-- What the driver did with one entry it advanced onto. -/
structure Visit where
  header_start : Int
  z_name : List Byte
  extracted : Option (Nat × List Byte)
  deriving DecidableEq, Repr

/-- The `while (zip_get_next_entry(zp))` loop of `main`; `can_open` tells for
which names the output file can be created.  The destination path is taken to
be built (`asprintf` succeeds).  The name is the C string at `zp->filename`:
it ends at the first NUL of the record from there on (after a header read
`comp_size` is below 2^32, so there is one). -/
def main_loop (E : InflateEngine) (src : List Byte) (garbage : Nat → Byte)
    (can_open : List Byte → Bool) : Nat → ZipParser → List Visit → Run (List Visit)
  | 0, _, _ => Run.timeout
  | fuel + 1, zp, log =>
    match zip_get_next_entry E src fuel zp with
    | Run.ret (0, _) => Run.ret log
    | Run.ret (_, zp1) =>
      let z_name := c_str (record_tail zp1)
      match z_name.getLast? with
      | none => Run.undef
      | some c =>
        if c = 0x2f then
          main_loop E src garbage can_open fuel zp1
            (log ++ [{ header_start := zp1.header_start, z_name := z_name, extracted := none }])
        else
          match extract_current E src garbage fuel zp1 (can_open z_name) with
          | Run.ret (r, zp2, written) =>
            main_loop E src garbage can_open fuel zp2
              (log ++ [{ header_start := zp1.header_start, z_name := z_name,
                         extracted := some (r, written) }])
          | Run.undef => Run.undef
          | Run.abort => Run.abort
          | Run.timeout => Run.timeout
    | Run.undef => Run.undef
    | Run.abort => Run.abort
    | Run.timeout => Run.timeout

/-! ## Specification vocabulary -/

/-- The 4-byte little-endian value that begins at offset `o` of `src`, when the
four bytes exist. -/
def sig_at (src : List Byte) (o : Nat) : Option Nat :=
  match src[o]?, src[o + 1]?, src[o + 2]?, src[o + 3]? with
  | some b0, some b1, some b2, some b3 => some (le32 b0 b1 b2 b3)
  | _, _, _, _ => none

/-- A recognized signature: the local file header or one of the five terminators. -/
def recognized (signature : Nat) : Bool :=
  signature == LOCAL_HEADER_SIGNATURE || is_terminator signature

/-- What a successful header read establishes: `zp` is the parser after
`read_header` returned 1 from the parser `zq` left by the scan.  The members
`uncomp_size`, `header_start` and `consumed` are those of `zq` when the name
written from `filename` on stopped before them. -/
structure HeaderRead (src : List Byte) (zq zp : ZipParser) : Prop where
  raw_length : (fread src (fseek_set zq.fp zq.header_start) 30).length = 30
  signature :
    (decode_lfh (fread src (fseek_set zq.fp zq.header_start) 30)).signature
      = LOCAL_HEADER_SIGNATURE
  in_record :
    (decode_lfh (fread src (fseek_set zq.fp zq.header_start) 30)).name_length < RECORD_TAIL_SIZE
  fp : zp.fp = fseek_set zq.fp zq.header_start + 30
      + (fread src (fseek_set zq.fp zq.header_start + 30)
          (decode_lfh (fread src (fseek_set zq.fp zq.header_start) 30)).name_length).length
      + (decode_lfh (fread src (fseek_set zq.fp zq.header_start) 30)).extra_length
  data_start : zp.data_start = (zp.fp : Int)
  filename : zp.filename = (store_name (record_tail zq)
      (fread src (fseek_set zq.fp zq.header_start + 30)
        (decode_lfh (fread src (fseek_set zq.fp zq.header_start) 30)).name_length)
      (decode_lfh (fread src (fseek_set zq.fp zq.header_start) 30)).name_length).take
        FILENAME_SIZE
  compression :
    zp.compression = (decode_lfh (fread src (fseek_set zq.fp zq.header_start) 30)).compression
  flags : zp.flags = (decode_lfh (fread src (fseek_set zq.fp zq.header_start) 30)).flags
  name_length :
    zp.name_length = (decode_lfh (fread src (fseek_set zq.fp zq.header_start) 30)).name_length
  extra_length :
    zp.extra_length = (decode_lfh (fread src (fseek_set zq.fp zq.header_start) 30)).extra_length
  comp_size :
    zp.comp_size = (decode_lfh (fread src (fseek_set zq.fp zq.header_start) 30)).compressed_size
  uncomp_size :
    (decode_lfh (fread src (fseek_set zq.fp zq.header_start) 30)).name_length
        < OFFSET_UNCOMP_SIZE →
    zp.uncomp_size =
      if (decode_lfh (fread src (fseek_set zq.fp zq.header_start) 30)).flags
            &&& FLAG_DATA_DESCRIPTOR ≠ 0
          ∧ (decode_lfh (fread src (fseek_set zq.fp zq.header_start) 30)).compressed_size = 0
      then zq.uncomp_size
      else (decode_lfh (fread src (fseek_set zq.fp zq.header_start) 30)).uncompressed_size
  header_start :
    (decode_lfh (fread src (fseek_set zq.fp zq.header_start) 30)).name_length
        < OFFSET_HEADER_START →
    zp.header_start = zq.header_start
  consumed :
    (decode_lfh (fread src (fseek_set zq.fp zq.header_start) 30)).name_length
        < OFFSET_CONSUMED →
    zp.consumed = zq.consumed

/-! ## Contract of the engine on one stream -/

/-- The input handed to the engine continues the stream: after `k` payload bytes
were consumed, `input` begins with the payload bytes that follow (and may go on
with bytes that come after the payload in the archive). -/
def Feeds (payload : List Byte) (k : Nat) (input : List Byte) : Prop :=
  input.take (payload.length - k) = (payload.drop k).take input.length

/-- Every call of the engine on the stream `payload` keeps the bookkeeping
`inv s k j` (in state `s` the engine has consumed `k` payload bytes and
produced `j` bytes).  A call with room for output
* consumes no more than it is given and no byte beyond the payload, produces no
  more than `avail_out` and no byte beyond `usize`;
* returns `Z_STREAM_END`, `Z_OK` or `Z_BUF_ERROR`;
* returns `Z_STREAM_END` only when the whole payload is consumed and all the
  output produced;
* when it stops short of stream-end with output room left, has consumed all its
  input and needs more. -/
def Tracks (E : InflateEngine) (payload : List Byte) (usize : Nat)
    (inv : E.State → Nat → Nat → Prop) : Prop :=
  ∀ (s : E.State) (k j : Nat) (input : List Byte) (avail_out : Nat),
    inv s k j → Feeds payload k input → 0 < avail_out →
    (E.call s input avail_out).used ≤ input.length ∧
    (E.call s input avail_out).out.length ≤ avail_out ∧
    k + (E.call s input avail_out).used ≤ payload.length ∧
    j + (E.call s input avail_out).out.length ≤ usize ∧
    inv (E.call s input avail_out).state (k + (E.call s input avail_out).used)
      (j + (E.call s input avail_out).out.length) ∧
    ((E.call s input avail_out).ret = ZRet.Z_STREAM_END ∨
      (E.call s input avail_out).ret = ZRet.Z_OK ∨
      (E.call s input avail_out).ret = ZRet.Z_BUF_ERROR) ∧
    ((E.call s input avail_out).ret = ZRet.Z_STREAM_END →
      k + (E.call s input avail_out).used = payload.length ∧
      j + (E.call s input avail_out).out.length = usize) ∧
    ((E.call s input avail_out).ret ≠ ZRet.Z_STREAM_END →
      (E.call s input avail_out).out.length < avail_out →
      (E.call s input avail_out).used = input.length ∧
      k + (E.call s input avail_out).used < payload.length)

/-- The engine decodes `payload` to stream-end, producing `usize` bytes: from
its initial state on, its calls on this stream keep a bookkeeping as `Tracks`
describes. -/
def Decodes (E : InflateEngine) (payload : List Byte) (usize : Nat) : Prop :=
  ∃ inv : E.State → Nat → Nat → Prop, inv E.init 0 0 ∧ Tracks E payload usize inv

/-! ## Well-formed archives -/

/-- A local entry as it lies in the archive. -/
structure Entry where
  header : List Byte
  name : List Byte
  extra : List Byte
  payload : List Byte

/-- The bytes of an entry: header, name, extra field, payload. -/
def Entry.bytes (e : Entry) : List Byte := e.header ++ (e.name ++ (e.extra ++ e.payload))

/-- A well-formed local entry: a 30-byte header with the local signature, bit
3 clear and accurate lengths and sizes, a name of 1 to 255 bytes, a store
payload of the declared size or a deflate payload the engine decodes to
stream-end; a name that ends in `/` goes with an empty payload. -/
structure Entry.WellFormed (E : InflateEngine) (e : Entry) : Prop where
  header_length : e.header.length = 30
  signature : (decode_lfh e.header).signature = LOCAL_HEADER_SIGNATURE
  no_descriptor : (decode_lfh e.header).flags &&& FLAG_DATA_DESCRIPTOR = 0
  name_length : (decode_lfh e.header).name_length = e.name.length
  name_pos : 1 ≤ e.name.length
  name_le : e.name.length ≤ 255
  extra_length : (decode_lfh e.header).extra_length = e.extra.length
  compressed_size : (decode_lfh e.header).compressed_size = e.payload.length
  method :
    ((decode_lfh e.header).compression = COMPRESSION_STORE ∧
      (decode_lfh e.header).uncompressed_size = e.payload.length) ∨
    ((decode_lfh e.header).compression = COMPRESSION_DEFLATE ∧
      Decodes E e.payload (decode_lfh e.header).uncompressed_size)
  directory : e.name.getLast? = some 0x2f → e.payload = []

/-- The entries one after the other. -/
def entries_bytes : List Entry → List Byte
  | [] => []
  | e :: es => e.bytes ++ entries_bytes es

/-- An archive: the entries, a central directory header signature, anything. -/
def archive_of (entries : List Entry) (tail : List Byte) : List Byte :=
  entries_bytes entries ++ ([0x50, 0x4b, 0x01, 0x02] ++ tail)

/-- Header offset and name of each entry, the first one lying at `off`. -/
def expected_visits : Nat → List Entry → List (Int × List Byte)
  | _, [] => []
  | off, e :: es => ((off : Int), e.name) :: expected_visits (off + e.bytes.length) es

/-- Fuel that decoding or skipping an entry takes at most. -/
def Entry.cost (e : Entry) : Nat :=
  e.payload.length + (decode_lfh e.header).uncompressed_size + 2

/-- Fuel that is enough for the driver on these entries. -/
def fuel_for (entries : List Entry) : Nat :=
  (entries.map Entry.cost).sum + entries.length + 2

/-- Header offset and name reported at each successful advance of a driver run. -/
def visited (r : Run (List Visit)) : Run (List (Int × List Byte)) :=
  match r with
  | Run.ret log => Run.ret (log.map (fun v => (v.header_start, v.z_name)))
  | Run.undef => Run.undef
  | Run.abort => Run.abort
  | Run.timeout => Run.timeout

/-- The parser is in step with the archive at offset `off`: once a pending
entry is closed (lines 197-200) the source stands at `off`. -/
def Synced (E : InflateEngine) (src : List Byte) (T : Nat) (zp : ZipParser) (off : Nat) : Prop :=
  ∃ zq : ZipParser, zq.fp = off ∧ zq.filename.length = 256 ∧
    ∀ fuel, T ≤ fuel → close_pending E src fuel zp = Run.ret zq

/-! ## Clients of the parser -/

/-- One call a client makes on the parser. -/
inductive Call where
  | advance : Call
  | extract (out_ok : Bool) : Call
  deriving DecidableEq, Repr

/-- A client making the calls in order: the values they return and the parser
after the last one. -/
def run_calls (E : InflateEngine) (src : List Byte) (garbage : Nat → Byte) (fuel : Nat) :
    List Call → ZipParser → Run (List Nat × ZipParser)
  | [], zp => Run.ret ([], zp)
  | Call.advance :: rest, zp =>
    match zip_get_next_entry E src fuel zp with
    | Run.ret (r, zp1) =>
      match run_calls E src garbage fuel rest zp1 with
      | Run.ret (rs, zp2) => Run.ret (r :: rs, zp2)
      | Run.undef => Run.undef
      | Run.abort => Run.abort
      | Run.timeout => Run.timeout
    | Run.undef => Run.undef
    | Run.abort => Run.abort
    | Run.timeout => Run.timeout
  | Call.extract out_ok :: rest, zp =>
    match extract_current E src garbage fuel zp out_ok with
    | Run.ret (r, zp1, _) =>
      match run_calls E src garbage fuel rest zp1 with
      | Run.ret (rs, zp2) => Run.ret (r :: rs, zp2)
      | Run.undef => Run.undef
      | Run.abort => Run.abort
      | Run.timeout => Run.timeout
    | Run.undef => Run.undef
    | Run.abort => Run.abort
    | Run.timeout => Run.timeout

/-- What is looked at after a run of calls: the returned values, then
`header_start`, `data_start` and the file position of the parser. -/
def observe (r : Run (List Nat × ZipParser)) : Run (List Nat × Int × Int × Nat) :=
  match r with
  | Run.ret (rs, zp) => Run.ret (rs, zp.header_start, zp.data_start, zp.fp)
  | Run.undef => Run.undef
  | Run.abort => Run.abort
  | Run.timeout => Run.timeout

/-- The result of the further call number `n` (from 0) of `zip_get_next_entry`
on a parser, the calls being made one after the other. -/
def later_call (E : InflateEngine) (src : List Byte) (fuel : Nat) :
    Nat → ZipParser → Run (Nat × ZipParser)
  | 0, zp => zip_get_next_entry E src fuel zp
  | n + 1, zp =>
    match zip_get_next_entry E src fuel zp with
    | Run.ret (_, zp1) => later_call E src fuel n zp1
    | Run.undef => Run.undef
    | Run.abort => Run.abort
    | Run.timeout => Run.timeout

/-! ## A concrete engine and concrete archives -/

/-- States of the engine `toy`. -/
inductive ToyState where
  | start : ToyState
  | copy (remaining : Nat) : ToyState
  | done : ToyState
  deriving DecidableEq, Repr

/-- Copying step of `toy`: `remaining` literal bytes are still owed, `pre`
input bytes were consumed before `input` in this call. -/
def toy_copy (remaining : Nat) (input : List Byte) (avail_out pre : Nat) :
    InflateCall ToyState :=
  let k := min remaining (min input.length avail_out)
  if k = remaining then ⟨ToyState.done, pre + k, input.take k, ZRet.Z_STREAM_END⟩
  else if k = 0 then
    ⟨ToyState.copy remaining, pre, [], if pre = 0 then ZRet.Z_BUF_ERROR else ZRet.Z_OK⟩
  else ⟨ToyState.copy (remaining - k), pre + k, input.take k, ZRet.Z_OK⟩

/-- One call of `toy`. -/
def toy_call : ToyState → List Byte → Nat → InflateCall ToyState
  | ToyState.done, _, _ => ⟨ToyState.done, 0, [], ZRet.Z_STREAM_END⟩
  | ToyState.copy r, input, avail_out => toy_copy r input avail_out 0
  | ToyState.start, [], _ => ⟨ToyState.start, 0, [], ZRet.Z_BUF_ERROR⟩
  | ToyState.start, n :: rest, avail_out => toy_copy n.toNat rest avail_out 1

/-- A small stand-in for zlib on concrete archives: a stream is a length byte
`N` followed by `N` literal bytes; the engine copies the literals, consumes
exactly `N + 1` bytes and then reports `Z_STREAM_END`; without progress it
reports `Z_BUF_ERROR`. -/
def toy : InflateEngine := ⟨ToyState, ToyState.start, toy_call⟩

/-- Bookkeeping of `toy` on a stream of `N` literals: consumed and produced
counts that belong to each state. -/
def toy_inv (N : Nat) : ToyState → Nat → Nat → Prop
  | ToyState.start, k, j => k = 0 ∧ j = 0
  | ToyState.copy r, k, j => 0 < r ∧ k + r = N + 1 ∧ j + r = N
  | ToyState.done, k, j => k = N + 1 ∧ j = N

/-- A heap whose bytes read `0xAA`. -/
def heap_aa : Nat → Byte := fun _ => 0xAA

/-- Test vector: a 30-byte local file header whose fields have the given low
bytes (all high bytes zero). -/
def lfh_bytes (flags compression compressed_size uncompressed_size name_length
    extra_length : Byte) : List Byte :=
  [0x50, 0x4b, 0x03, 0x04, 20, 0, flags, 0, compression, 0, 0, 0, 0, 0, 0, 0, 0, 0,
   compressed_size, 0, 0, 0, uncompressed_size, 0, 0, 0, name_length, 0, extra_length, 0]

/-- The parser right after a fresh parser advanced onto an entry whose header
has flags 0 and no extra field. -/
def on_entry (name : List Byte) (header_start data_start compression comp_size
    uncomp_size : Nat) : ZipParser :=
  { fp := data_start
    filename := store_name (List.replicate 256 0) name name.length
    comp_size := comp_size
    uncomp_size := uncomp_size
    compression := compression
    name_length := name.length
    extra_length := 0
    flags := 0
    data_start := (data_start : Int)
    header_start := (header_start : Int)
    consumed := false }

/-- The parser right after a fresh parser advanced onto the entry of
`archive_deflate_descriptor`. -/
def on_descriptor_entry : ZipParser := { on_entry [0x61] 0 31 8 0 0 with flags := 8 }

/-- A central directory signature, 4092 zero bytes, then a local entry named
`a` at offset 4096. -/
def archive_entry_after_terminator : List Byte :=
  [0x50, 0x4b, 0x01, 0x02] ++ List.replicate 4092 0 ++ lfh_bytes 0 0 0 0 1 0 ++ [0x61]

/-- Three stored entries `a` (payload `x`), `b` (a 30-byte payload that begins
with the bytes 50 4b 03 04) and `c` (empty), then a central directory
signature.  Headers at 0, 32 and 93; the payload of `b` occupies 63..92. -/
def archive_signature_in_payload : List Byte :=
  lfh_bytes 0 0 1 1 1 0 ++ [0x61] ++ [0x78]
  ++ lfh_bytes 0 0 30 30 1 0 ++ [0x62] ++ lfh_bytes 0 0 0 0 0 0
  ++ lfh_bytes 0 0 0 0 1 0 ++ [0x63]
  ++ [0x50, 0x4b, 0x01, 0x02]

/-- One stored entry `a` with the 4-byte payload 50 4b 03 04, then a central
directory signature. -/
def archive_one_stored : List Byte :=
  lfh_bytes 0 0 4 4 1 0 ++ [0x61] ++ [0x50, 0x4b, 0x03, 0x04] ++ [0x50, 0x4b, 0x01, 0x02]

/-- One stored entry `a` that declares 5 payload bytes, of which the archive
holds 2 (33 bytes in all). -/
def archive_truncated_store : List Byte :=
  lfh_bytes 0 0 5 5 1 0 ++ [0x61] ++ [0x01, 0x02]

/-- One deflate entry `a` whose stream announces 4 literal bytes, of which the
archive holds 2 (34 bytes in all). -/
def archive_truncated_deflate : List Byte :=
  lfh_bytes 0 8 5 4 1 0 ++ [0x61] ++ [0x04, 0x01, 0x02]

/-- One entry `a` with compression method 12, payload `01 02`, then a central
directory signature. -/
def archive_unsupported_method : List Byte :=
  lfh_bytes 0 12 2 2 1 0 ++ [0x61] ++ [0x01, 0x02] ++ [0x50, 0x4b, 0x01, 0x02]

/-- One deflate entry `a` with flag bit 3 set and declared sizes 0, whose
5-byte stream `04 50 4b 03 04` decodes to `50 4b 03 04`, then a central
directory signature. -/
def archive_deflate_descriptor : List Byte :=
  lfh_bytes 8 8 0 0 1 0 ++ [0x61] ++ [0x04, 0x50, 0x4b, 0x03, 0x04] ++ [0x50, 0x4b, 0x01, 0x02]

/-- Test archive entries: a directory `d/`, a stored file `a` of 10 bytes that
begin with 50 4b 03 04, and a deflate file `b` whose 5-byte stream
`04 50 4b 03 04` expands to 4 bytes. -/
def entries_three : List Entry :=
  [ { header := lfh_bytes 0 0 0 0 2 0, name := [0x64, 0x2f], extra := [], payload := [] },
    { header := lfh_bytes 0 0 10 10 1 0, name := [0x61], extra := [],
      payload := [0x50, 0x4b, 0x03, 0x04, 1, 2, 3, 4, 5, 6] },
    { header := lfh_bytes 0 8 5 4 1 0, name := [0x62], extra := [],
      payload := [0x04, 0x50, 0x4b, 0x03, 0x04] } ]

/-- A stored entry with an empty payload whose 2-byte name is `a` followed by NUL. -/
def entries_nul_name : List Entry :=
  [ { header := lfh_bytes 0 0 0 0 2 0, name := [0x61, 0x00], extra := [], payload := [] } ]

/-- A stored file `a` (payload `x`) followed by a stored file whose 3-byte name
is `d/` followed by NUL and whose 31-byte payload has the form of a local entry
named `z`. -/
def entries_directory_lookalike : List Entry :=
  [ { header := lfh_bytes 0 0 1 1 1 0, name := [0x61], extra := [], payload := [0x78] },
    { header := lfh_bytes 0 0 31 31 3 0, name := [0x64, 0x2f, 0x00], extra := [],
      payload := lfh_bytes 0 0 0 0 1 0 ++ [0x7a] } ]

/-! ## Further observations and concrete archives -/

/-- What is looked at after a run of calls when sizes matter: the returned
values, then `comp_size` and `uncomp_size` of the parser. -/
def observe_sizes (r : Run (List Nat × ZipParser)) : Run (List Nat × Nat × Nat) :=
  match r with
  | Run.ret (rs, zp) => Run.ret (rs, zp.comp_size, zp.uncomp_size)
  | Run.undef => Run.undef
  | Run.abort => Run.abort
  | Run.timeout => Run.timeout

/-- A stored entry `a` (payload `x`, sizes 1 and 1) followed by a deflate entry
`b` with flag bit 3 set and declared sizes 0, whose stream is `04 01 02 03 04`,
then a central directory signature. -/
def archive_descriptor_after_stored : List Byte :=
  lfh_bytes 0 0 1 1 1 0 ++ [0x61] ++ [0x78]
  ++ lfh_bytes 8 8 0 0 1 0 ++ [0x62] ++ [0x04, 0x01, 0x02, 0x03, 0x04]
  ++ [0x50, 0x4b, 0x01, 0x02]

/-- One stored entry `a` with an empty payload whose flags are 0x0808: bit 3
(data descriptor) and bit 11 (UTF-8 names) set. -/
def archive_store_flags_0808 : List Byte :=
  [0x50, 0x4b, 0x03, 0x04, 20, 0, 0x08, 0x08, 0, 0, 0, 0, 0, 0, 0, 0, 0, 0,
   0, 0, 0, 0, 0, 0, 0, 0, 1, 0, 0, 0] ++ [0x61]

/-- The parser right after a fresh parser advanced onto the entry of
`archive_store_flags_0808`. -/
def on_flags_0808_entry : ZipParser := { on_entry [0x61] 0 31 0 0 0 with flags := 0x0808 }

/-- One stored entry whose header declares a name of 256 bytes (length field
`00 01`), followed by 256 bytes `a` and a central directory signature. -/
def archive_name_256 : List Byte :=
  [0x50, 0x4b, 0x03, 0x04, 20, 0, 0, 0, 0, 0, 0, 0, 0, 0, 0, 0, 0, 0,
   0, 0, 0, 0, 0, 0, 0, 0, 0x00, 0x01, 0, 0]
  ++ List.replicate 256 0x61 ++ [0x50, 0x4b, 0x01, 0x02]

/-- One stored entry with an empty payload whose header declares a name of 257
bytes (length field `01 01`), followed by 257 bytes `a` and a central directory
signature. -/
def archive_name_257 : List Byte :=
  [0x50, 0x4b, 0x03, 0x04, 20, 0, 0, 0, 0, 0, 0, 0, 0, 0, 0, 0, 0, 0,
   0, 0, 0, 0, 0, 0, 0, 0, 0x01, 0x01, 0, 0]
  ++ List.replicate 257 0x61 ++ [0x50, 0x4b, 0x01, 0x02]

/-- What is looked at of the name after a call of `zip_get_next_entry`: the
returned value, `name_length`, the array `filename`, and the name as the C
string at `filename`. -/
def observe_name (r : Run (Nat × ZipParser)) : Run (Nat × Nat × List Byte × List Byte) :=
  match r with
  | Run.ret (code, zp) => Run.ret (code, zp.name_length, zp.filename, c_str (record_tail zp))
  | Run.undef => Run.undef
  | Run.abort => Run.abort
  | Run.timeout => Run.timeout

/-! ## Scan start offsets of a client run -/

/-- The source positions at which the signature scan is entered, in order,
while a client makes the calls; the list ends where the run stops. -/
def scan_starts (E : InflateEngine) (src : List Byte) (garbage : Nat → Byte) (fuel : Nat) :
    List Call → ZipParser → List Nat
  | [], _ => []
  | Call.advance :: rest, zp =>
    match close_pending E src fuel zp with
    | Run.ret zq =>
      zq.fp ::
        (match zip_get_next_entry E src fuel zp with
         | Run.ret (_, zp1) => scan_starts E src garbage fuel rest zp1
         | Run.undef => []
         | Run.abort => []
         | Run.timeout => [])
    | Run.undef => []
    | Run.abort => []
    | Run.timeout => []
  | Call.extract out_ok :: rest, zp =>
    match extract_current E src garbage fuel zp out_ok with
    | Run.ret (_, zp1, _) => scan_starts E src garbage fuel rest zp1
    | Run.undef => []
    | Run.abort => []
    | Run.timeout => []

/-- The client makes no call after `zip_get_next_entry` has returned 0. -/
def stops_at_exhaustion (E : InflateEngine) (src : List Byte) (garbage : Nat → Byte)
    (fuel : Nat) : List Call → ZipParser → Bool
  | [], _ => true
  | Call.advance :: rest, zp =>
    match zip_get_next_entry E src fuel zp with
    | Run.ret (0, _) => rest.isEmpty
    | Run.ret (_, zp1) => stops_at_exhaustion E src garbage fuel rest zp1
    | Run.undef => true
    | Run.abort => true
    | Run.timeout => true
  | Call.extract out_ok :: rest, zp =>
    match extract_current E src garbage fuel zp out_ok with
    | Run.ret (_, zp1, _) => stops_at_exhaustion E src garbage fuel rest zp1
    | Run.undef => true
    | Run.abort => true
    | Run.timeout => true

/-- The record of the parser, seen from a scan that started at `P`: either no
entry was found yet and the record is the one `zip_open` made, or the data of
the record begin at or after `P`. -/
def Ahead (zp : ZipParser) (P : Nat) : Prop :=
  P ≤ zp.fp ∧
  ((zp.header_start = -1 ∧ zp.data_start < 0 ∧ zp.compression = COMPRESSION_STORE ∧
      zp.comp_size = 0) ∨
    (P : Int) ≤ zp.data_start)

/-! # Theorems -/

/-! ## Lemmas on the scanner -/

theorem sig_at_cons (b : Byte) (w : List Byte) (j : Nat) :
    sig_at (b :: w) (j + 1) = sig_at w j := by
  simp [sig_at]

theorem sig_at_window (b0 b1 b2 b3 : Byte) (rest : List Byte) :
    sig_at (b0 :: b1 :: b2 :: b3 :: rest) 0 = some (le32 b0 b1 b2 b3) := by
  simp [sig_at]

theorem sig_at_some_length {src : List Byte} {o v : Nat} (h : sig_at src o = some v) :
    o + 4 ≤ src.length := by
  unfold sig_at at h
  split at h
  · rename_i h0 h1 h2 h3
    have := (List.getElem?_eq_some_iff.mp h3).1
    omega
  · cases h

theorem sig_at_fread (src : List Byte) (pos n j : Nat)
    (hj : j + 4 ≤ (fread src pos n).length) :
    sig_at (fread src pos n) j = sig_at src (pos + j) := by
  have hn : j + 4 ≤ n := by
    have : (fread src pos n).length ≤ n := by simp [fread]
    omega
  have e : ∀ t, t < 4 → (fread src pos n)[j + t]? = src[pos + j + t]? := by
    intro t ht
    unfold fread
    rw [List.getElem?_take_of_lt (by omega), List.getElem?_drop]
    congr 1
    omega
  have e0 := e 0 (by omega)
  have e1 := e 1 (by omega)
  have e2 := e 2 (by omega)
  have e3 := e 3 (by omega)
  simp only [Nat.add_zero] at e0
  simp only [sig_at, e0, e1, e2, e3]

theorem scan_for_miss (k : Nat) : ∀ (w : List Byte) (i : Nat), k + 3 ≤ w.length →
    (∀ j v, j < k → sig_at w j = some v → recognized v = false) →
    scan_for w i k = Hit.miss := by
  induction k with
  | zero => intro w i _ _; cases w <;> simp [scan_for]
  | succ k ih =>
    intro w i hlen hno
    match w, hlen with
    | b0 :: b1 :: b2 :: b3 :: rest, hlen =>
      have h0 := hno 0 _ (Nat.succ_pos k) (sig_at_window b0 b1 b2 b3 rest)
      simp only [recognized, Bool.or_eq_false_iff, beq_eq_false_iff_ne, ne_eq] at h0
      have hrec := ih (b1 :: b2 :: b3 :: rest) (i + 1)
        (by simp only [List.length_cons] at hlen ⊢; omega)
        (fun j v hj hs => hno (j + 1) v (by omega) (by rw [sig_at_cons]; exact hs))
      simp only [scan_for, h0.1, h0.2, if_false, Bool.false_eq_true]
      exact hrec

theorem scan_for_hit (j : Nat) : ∀ (w : List Byte) (i k v : Nat), j < k →
    sig_at w j = some v → recognized v = true →
    (∀ j1 v1, j1 < j → sig_at w j1 = some v1 → recognized v1 = false) →
    scan_for w i k = if v = LOCAL_HEADER_SIGNATURE then Hit.header (i + j) else Hit.stop := by
  induction j with
  | zero =>
    intro w i k v hk hs hr _
    have hlen := sig_at_some_length hs
    match w, k, hk, hlen with
    | b0 :: b1 :: b2 :: b3 :: rest, k + 1, _, _ =>
      rw [sig_at_window] at hs
      cases hs
      by_cases hv : le32 b0 b1 b2 b3 = LOCAL_HEADER_SIGNATURE
      · simp [scan_for, hv]
      · have ht : is_terminator (le32 b0 b1 b2 b3) = true := by
          simpa [recognized, hv] using hr
        simp [scan_for, hv, ht]
  | succ j ih =>
    intro w i k v hk hs hr hno
    have hlen := sig_at_some_length hs
    match w, k, hk, hlen with
    | b0 :: b1 :: b2 :: b3 :: rest, k + 1, hk, _ =>
      have h0 := hno 0 _ (Nat.succ_pos j) (sig_at_window b0 b1 b2 b3 rest)
      simp only [recognized, Bool.or_eq_false_iff, beq_eq_false_iff_ne, ne_eq] at h0
      have hrec := ih (b1 :: b2 :: b3 :: rest) (i + 1) k v (by omega)
        (by rw [← sig_at_cons b0]; exact hs) hr
        (fun j1 v1 hj1 hs1 => hno (j1 + 1) v1 (by omega) (by rw [sig_at_cons]; exact hs1))
      simp only [scan_for, h0.1, h0.2, if_false, Bool.false_eq_true]
      rw [hrec]
      have : i + 1 + j = i + (j + 1) := by omega
      rw [this]

theorem fread_length (src : List Byte) (pos n : Nat) :
    (fread src pos n).length = min n (src.length - pos) := by
  simp [fread]

theorem scan_bound_of_ge {r : Nat} (h3 : 3 ≤ r) (hr : r ≤ BUFFER_SIZE) : scan_bound r = r - 3 := by
  unfold scan_bound SIZE_MOD
  unfold BUFFER_SIZE at hr
  omega

/-- Scanner, found case, with the position left behind made explicit. -/
theorem scan_first_signature (src : List Byte) (o v : Nat) (hs : sig_at src o = some v)
    (hr : recognized v = true) :
    ∀ (fuel : Nat) (zp : ZipParser), zp.fp ≤ o →
      (∀ p v1, zp.fp ≤ p → p < o → sig_at src p = some v1 → recognized v1 = false) →
      o - zp.fp < 4093 * fuel →
      ∃ fp1, zip_skip_until_next_entry src fuel zp =
        if v = LOCAL_HEADER_SIGNATURE then
          Run.ret (1, { zp with fp := fp1, header_start := (o : Int) })
        else Run.ret (0, { zp with fp := fp1 }) := by
  have hlen := sig_at_some_length hs
  intro fuel
  induction fuel with
  | zero => intro zp _ _ hf; omega
  | succ fuel ih =>
    intro zp hle hfirst hf
    have hrl := fread_length src zp.fp BUFFER_SIZE
    have hB : BUFFER_SIZE = 4096 := rfl
    have hge4 : 4 ≤ (fread src zp.fp BUFFER_SIZE).length := by rw [hrl, hB]; omega
    have hle4096 : (fread src zp.fp BUFFER_SIZE).length ≤ BUFFER_SIZE := by rw [hrl]; omega
    have hne : (fread src zp.fp BUFFER_SIZE).length ≠ 0 := by omega
    have hbound := scan_bound_of_ge (r := (fread src zp.fp BUFFER_SIZE).length) (by omega) hle4096
    unfold zip_skip_until_next_entry
    simp only [hne, if_false, hbound]
    by_cases hin : o - zp.fp + 4 ≤ (fread src zp.fp BUFFER_SIZE).length
    · -- the signature lies in this chunk
      have hit := scan_for_hit (o - zp.fp) (fread src zp.fp BUFFER_SIZE) 0
        ((fread src zp.fp BUFFER_SIZE).length - 3) v (by omega)
        (by rw [sig_at_fread _ _ _ _ hin]; rw [show zp.fp + (o - zp.fp) = o by omega]; exact hs) hr
        (by
          intro j1 v1 hj1 hs1
          have hj4 := sig_at_some_length hs1
          rw [sig_at_fread _ _ _ _ hj4] at hs1
          exact hfirst (zp.fp + j1) v1 (by omega) (by omega) hs1)
      rw [hit]
      refine ⟨zp.fp + (fread src zp.fp BUFFER_SIZE).length, ?_⟩
      by_cases hv : v = LOCAL_HEADER_SIGNATURE
      · simp only [hv, if_true]
        have : zp.fp + (0 + (o - zp.fp)) = o := by omega
        rw [this]
      · simp only [hv, if_false]
    · -- the chunk is full and holds no recognized signature
      have hfull : (fread src zp.fp BUFFER_SIZE).length = 4096 := by
        rw [hrl, hB] at hin ⊢
        omega
      have hmiss := scan_for_miss ((fread src zp.fp BUFFER_SIZE).length - 3)
        (fread src zp.fp BUFFER_SIZE) 0 (by omega)
        (by
          intro j v1 hj hs1
          have hj4 := sig_at_some_length hs1
          rw [sig_at_fread _ _ _ _ hj4] at hs1
          exact hfirst (zp.fp + j) v1 (by omega) (by omega) hs1)
      rw [hmiss]
      simp only [hfull]
      have hseek : fseek_set (zp.fp + 4096) (((zp.fp + 4096 : Nat) : Int) - 3) = zp.fp + 4093 := by
        unfold fseek_set
        have : ¬ (((zp.fp + 4096 : Nat) : Int) - 3 < 0) := by omega
        simp only [this, if_false]
        omega
      rw [hseek]
      obtain ⟨fp1, h1⟩ := ih { zp with fp := zp.fp + 4093 } (by simp only; omega)
        (by
          intro p v1 hp hpo hs1
          exact hfirst p v1 (by simp only at hp; omega) hpo hs1)
        (by simp only; omega)
      exact ⟨fp1, h1⟩

/-- C1: when a recognized signature begins at an offset at or after the scan's
start position, `zip_skip_until_next_entry` decides by the first such offset `o`
(any alignment, any place relative to the 4096-byte chunks): with enough fuel it
returns 1 and `header_start = o` if the signature at `o` is the local file
header, and returns 0 if it is one of the five terminators; no other field than
the file position changes. -/
theorem scan_decides_by_first_signature (src : List Byte) (zp : ZipParser) (o v fuel : Nat)
    (h_start : zp.fp ≤ o)
    (h_sig : sig_at src o = some v)
    (h_rec : recognized v = true)
    (h_first : ∀ p v1, zp.fp ≤ p → p < o → sig_at src p = some v1 → recognized v1 = false)
    (h_fuel : o - zp.fp < 4093 * fuel) :
    ∃ fp1, zip_skip_until_next_entry src fuel zp =
      if v = LOCAL_HEADER_SIGNATURE then
        Run.ret (1, { zp with fp := fp1, header_start := (o : Int) })
      else Run.ret (0, { zp with fp := fp1 }) :=
  scan_first_signature src o v h_sig h_rec fuel zp h_start h_first h_fuel

theorem le32_mod_256 (b0 b1 b2 b3 : Byte) : le32 b0 b1 b2 b3 % 256 = b0.toNat := by
  have h := b0.toNat_lt
  have h256 : UInt8.size = 256 := rfl
  unfold le32
  omega

theorem recognized_low_byte {v : Nat} (h : recognized v = true) : v % 256 = 0x50 := by
  simp only [recognized, is_terminator, Bool.or_eq_true, beq_iff_eq] at h
  rcases h with h | (((h | h) | h) | h) | h <;> subst h <;> rfl

theorem sig_at_low_byte {src : List Byte} {o v : Nat} (h : sig_at src o = some v) :
    ∃ b, src[o]? = some b ∧ v % 256 = b.toNat := by
  unfold sig_at at h
  split at h
  · rename_i b0 b1 b2 b3 h0 h1 h2 h3
    cases h
    exact ⟨b0, h0, le32_mod_256 b0 b1 b2 b3⟩
  · cases h

theorem sig_at_append_right (pad t : List Byte) (j : Nat) :
    sig_at (pad ++ t) (pad.length + j) = sig_at t j := by
  have e : ∀ k, (pad ++ t)[pad.length + j + k]? = t[j + k]? := by
    intro k
    rw [List.getElem?_append_right (by omega)]
    congr 1
    omega
  have e0 := e 0
  simp only [Nat.add_zero] at e0
  simp only [sig_at, e0, e 1, e 2, e 3]

/-- Witness for C1: the local header signature begins at offset 4094 and spans
the end of the first 4096-byte chunk; the scan from 0 reports it. -/
theorem scan_decides_by_first_signature_witness :
    sig_at (List.replicate 4094 (0 : Byte) ++ [0x50, 0x4b, 0x03, 0x04]) 4094
      = some LOCAL_HEADER_SIGNATURE ∧
    ∃ fp1, zip_skip_until_next_entry (List.replicate 4094 (0 : Byte) ++ [0x50, 0x4b, 0x03, 0x04])
      2 zip_open = Run.ret (1, { zip_open with fp := fp1, header_start := ((4094 : Nat) : Int) }) := by
  have hl : (List.replicate 4094 (0 : Byte)).length = 4094 := List.length_replicate _ _
  have hs : sig_at (List.replicate 4094 (0 : Byte) ++ [0x50, 0x4b, 0x03, 0x04]) 4094
      = some LOCAL_HEADER_SIGNATURE := by
    have h := sig_at_append_right (List.replicate 4094 (0 : Byte)) [0x50, 0x4b, 0x03, 0x04] 0
    rw [hl] at h
    rw [h]
    decide
  refine ⟨hs, ?_⟩
  have h := scan_decides_by_first_signature
    (List.replicate 4094 (0 : Byte) ++ [0x50, 0x4b, 0x03, 0x04]) zip_open 4094
    LOCAL_HEADER_SIGNATURE 2 (by decide) hs (by decide)
    (by
      intro p v1 _ hp hs1
      obtain ⟨b, hb, hv⟩ := sig_at_low_byte hs1
      rw [List.getElem?_append_left (by rw [hl]; exact hp)] at hb
      rw [List.getElem?_replicate] at hb
      simp only [hp, if_true, Option.some.injEq] at hb
      subst hb
      cases hr : recognized v1 with
      | false => rfl
      | true =>
        have := recognized_low_byte hr
        rw [hv] at this
        exact absurd this (by decide))
    (by decide)
  obtain ⟨fp1, h1⟩ := h
  rw [if_pos rfl] at h1
  exact ⟨fp1, h1⟩

/-! ## End of stream without a signature -/

/-- With at least three bytes left and no recognized signature ahead, the scan
never returns: every chunk ends with the seek `start + read_size - 3`, so the
last three bytes are read again and again and `read_size == 0` is never seen. -/
theorem scan_spins_at_end (src : List Byte) : ∀ (fuel : Nat) (zp : ZipParser),
    zp.fp + 3 ≤ src.length →
    (∀ p v, zp.fp ≤ p → sig_at src p = some v → recognized v = false) →
    zip_skip_until_next_entry src fuel zp = Run.timeout := by
  intro fuel
  induction fuel with
  | zero => intro zp _ _; rfl
  | succ fuel ih =>
    intro zp h3 hno
    have hrl := fread_length src zp.fp BUFFER_SIZE
    have hB : BUFFER_SIZE = 4096 := rfl
    have hge : 3 ≤ (fread src zp.fp BUFFER_SIZE).length := by rw [hrl, hB]; omega
    have hle : (fread src zp.fp BUFFER_SIZE).length ≤ BUFFER_SIZE := by rw [hrl]; omega
    have hne : (fread src zp.fp BUFFER_SIZE).length ≠ 0 := by omega
    have hbound := scan_bound_of_ge hge hle
    have hmiss := scan_for_miss ((fread src zp.fp BUFFER_SIZE).length - 3)
      (fread src zp.fp BUFFER_SIZE) 0 (by omega)
      (by
        intro j v1 _ hs1
        have hj4 := sig_at_some_length hs1
        rw [sig_at_fread _ _ _ _ hj4] at hs1
        exact hno (zp.fp + j) v1 (by omega) hs1)
    unfold zip_skip_until_next_entry
    simp only [hne, if_false, hbound, hmiss]
    apply ih
    · simp only [fseek_set]
      have hL : zp.fp + (fread src zp.fp BUFFER_SIZE).length ≤ src.length := by rw [hrl]; omega
      split <;> omega
    · intro p v1 hp hs1
      apply hno p v1 _ hs1
      simp only [fseek_set] at hp
      split at hp <;> omega

/-- C2 (fails on the code): on the three-byte source `00 00 00`, which holds no
signature, `zip_skip_until_next_entry` started at offset 0 does not return 0
whatever the fuel: it runs forever. -/
theorem scan_no_signature_three_bytes_never_returns (fuel : Nat) :
    zip_skip_until_next_entry [0x00, 0x00, 0x00] fuel zip_open = Run.timeout :=
  scan_spins_at_end [0x00, 0x00, 0x00] fuel zip_open (by decide)
    (by
      intro p v _ hs
      have := sig_at_some_length hs
      simp at this)

/-! ## Stickiness of the exhausted state -/

/-- C3 (fails as stated): on a fresh parser over an archive that begins with a
central directory signature and holds a local entry at offset 4096, the first
`zip_get_next_entry` returns 0 and the next one returns 1 with
`header_start = 4096`. -/
theorem exhausted_not_sticky_after_terminator :
    observe (run_calls toy archive_entry_after_terminator heap_aa 2
      [Call.advance, Call.advance] zip_open) = Run.ret ([0, 1], 4096, 4127, 4127) := by
  decide!

theorem get_next_at_end (E : InflateEngine) (src : List Byte) (fuel : Nat) (zp : ZipParser)
    (h_end : src.length ≤ zp.fp) (h_idle : zp.consumed = true ∨ zp.header_start = -1) :
    zip_get_next_entry E src (fuel + 1) zp = Run.ret (0, zp) := by
  have hc : ¬ (zp.consumed = false ∧ zp.header_start ≠ -1) := by
    rcases h_idle with h | h <;> simp [h]
  have hr : (fread src zp.fp BUFFER_SIZE).length = 0 := by
    rw [fread_length]; omega
  simp only [zip_get_next_entry, close_pending, hc, if_false, zip_skip_until_next_entry, hr,
    if_true, Nat.add_zero]

/-- C3 (amended): when the byte source is at end of stream and the parser holds
no record of an unextracted entry (`consumed` is set, or `header_start` is still
-1), every later call of `zip_get_next_entry` returns 0 and leaves the parser as
it is. -/
theorem exhausted_at_end_of_stream_is_sticky (E : InflateEngine) (src : List Byte)
    (zp : ZipParser) (h_end : src.length ≤ zp.fp)
    (h_idle : zp.consumed = true ∨ zp.header_start = -1) (fuel n : Nat) :
    later_call E src (fuel + 1) n zp = Run.ret (0, zp) := by
  induction n with
  | zero => exact get_next_at_end E src fuel zp h_end h_idle
  | succ n ih =>
    simp only [later_call, get_next_at_end E src fuel zp h_end h_idle]
    exact ih

/-- Witness for C3 (amended): over the 4-byte archive made of a central
directory signature, the parser left by the first call (position 4,
`header_start` -1) keeps answering 0; here the third further call. -/
theorem exhausted_at_end_of_stream_is_sticky_witness :
    zip_get_next_entry toy [0x50, 0x4b, 0x01, 0x02] 1 zip_open
        = Run.ret (0, { zip_open with fp := 4 }) ∧
    later_call toy [0x50, 0x4b, 0x01, 0x02] 1 2 { zip_open with fp := 4 }
        = Run.ret (0, { zip_open with fp := 4 }) :=
  ⟨by decide!, exhausted_at_end_of_stream_is_sticky toy [0x50, 0x4b, 0x01, 0x02]
    { zip_open with fp := 4 } (by decide) (Or.inr rfl) 0 2⟩

/-! ## Inversion of the scan and of the header read -/

theorem scan_for_header_inv : ∀ (k : Nat) (w : List Byte) (i j : Nat),
    scan_for w i k = Hit.header j →
    ∃ j0, j = i + j0 ∧ j0 < k ∧ sig_at w j0 = some LOCAL_HEADER_SIGNATURE := by
  intro k
  induction k with
  | zero => intro w i j h; simp [scan_for] at h
  | succ k ih =>
    intro w i j h
    match w with
    | [] => simp [scan_for] at h
    | [_] => simp [scan_for] at h
    | [_, _] => simp [scan_for] at h
    | [_, _, _] => simp [scan_for] at h
    | b0 :: b1 :: b2 :: b3 :: rest =>
      simp only [scan_for] at h
      split at h
      · rename_i hv
        cases h
        exact ⟨0, rfl, Nat.succ_pos k, by rw [sig_at_window, hv]⟩
      · split at h
        · cases h
        · obtain ⟨j0, hj, hk, hs⟩ := ih _ _ _ h
          exact ⟨j0 + 1, by omega, by omega, by rw [sig_at_cons]; exact hs⟩

theorem scan_for_miss_inv : ∀ (k : Nat) (w : List Byte) (i : Nat),
    scan_for w i k = Hit.miss → k = 0 ∨ k + 3 ≤ w.length := by
  intro k
  induction k with
  | zero => intro _ _ _; left; rfl
  | succ k ih =>
    intro w i h
    match w with
    | [] => simp [scan_for] at h
    | [_] => simp [scan_for] at h
    | [_, _] => simp [scan_for] at h
    | [_, _, _] => simp [scan_for] at h
    | b0 :: b1 :: b2 :: b3 :: rest =>
      simp only [scan_for] at h
      split at h
      · cases h
      · split at h
        · cases h
        · right
          rcases ih _ _ h with h0 | h0
          · subst h0; simp
          · simp only [List.length_cons] at h0 ⊢; omega

/-- A scan that returns does so with 0 or 1; with 1 it stored the offset of a
local file header signature at or after the start position; nothing but `fp`
and `header_start` changes. -/
theorem scan_ret_inv (src : List Byte) : ∀ (fuel : Nat) (zp zq : ZipParser) (r : Nat),
    zip_skip_until_next_entry src fuel zp = Run.ret (r, zq) →
    (r = 0 ∧ zq = { zp with fp := zq.fp }) ∨
    (r = 1 ∧ ∃ o : Nat, zp.fp ≤ o ∧ sig_at src o = some LOCAL_HEADER_SIGNATURE ∧
      zq = { zp with fp := zq.fp, header_start := (o : Int) }) := by
  intro fuel
  induction fuel with
  | zero => intro zp zq r h; simp [zip_skip_until_next_entry] at h
  | succ fuel ih =>
    intro zp zq r h
    unfold zip_skip_until_next_entry at h
    simp only at h
    split at h
    · cases h; left; exact ⟨rfl, rfl⟩
    · split at h
      · rename_i i hit
        cases h
        obtain ⟨j0, hj, hk, hs⟩ := scan_for_header_inv _ _ _ _ hit
        have hlen := sig_at_some_length hs
        rw [sig_at_fread _ _ _ _ hlen] at hs
        right
        refine ⟨rfl, zp.fp + j0, by omega, hs, ?_⟩
        simp only [hj, Nat.zero_add]
      · cases h; left; exact ⟨rfl, rfl⟩
      · cases h
      · rename_i hne hmiss
        have hk := scan_for_miss_inv _ _ _ hmiss
        have hsb : scan_bound (fread src zp.fp BUFFER_SIZE).length ≠ 0 ∨
            3 ≤ (fread src zp.fp BUFFER_SIZE).length := by
          unfold scan_bound SIZE_MOD
          omega
        have h3 : 3 ≤ (fread src zp.fp BUFFER_SIZE).length := by
          rcases hsb with hsb | hsb
          · rcases hk with hk | hk
            · exact absurd hk hsb
            · omega
          · exact hsb
        rcases ih _ _ _ h with ⟨h0, hz⟩ | ⟨h1, o, ho, hs, hz⟩
        · left; exact ⟨h0, by rw [hz]⟩
        · right
          refine ⟨h1, o, ?_, hs, by rw [hz]⟩
          simp only [fseek_set] at ho
          split at ho <;> omega

theorem record_tail_with_fp (zp : ZipParser) (x : Nat) :
    record_tail { zp with fp := x } = record_tail zp := rfl

theorem read_header_inv (src : List Byte) (zq zp : ZipParser) (r : Nat)
    (h : read_header src zq = Run.ret (r, zp)) (hr : r ≠ 0) : r = 1 ∧ HeaderRead src zq zp := by
  by_cases hdd : (decode_lfh (fread src (fseek_set zq.fp zq.header_start) 30)).flags
        &&& FLAG_DATA_DESCRIPTOR ≠ 0
      ∧ (decode_lfh (fread src (fseek_set zq.fp zq.header_start) 30)).compressed_size = 0
  all_goals
    unfold read_header at h
    simp only at h
    split_ifs at h with hlen hsig hrec hbool
    all_goals try cases h
    all_goals first
      | exact absurd rfl hr
      | skip
    all_goals
      have hl := not_not.mp hlen
      refine ⟨rfl, ?_⟩
      constructor
      · exact hl
      · exact not_not.mp hsig
      · exact not_le.mp hrec
      · simp only [hl]
      · with_reducible rfl
      · simp only [hl, record_tail_with_fp]
      · with_reducible rfl
      · with_reducible rfl
      · with_reducible rfl
      · with_reducible rfl
      · first | with_reducible rfl | exact hdd.2.symm
      · intro hn
        first
          | (refine Eq.trans ?_ (if_pos hdd).symm; first | with_reducible rfl | exact absurd hn (by assumption))
          | (exact (if_neg hdd).symm)
      · intro hn
        first | with_reducible rfl | exact absurd hn (by assumption)
      · intro hn
        first | with_reducible rfl | exact absurd hn (by assumption)

/-- A successful `zip_get_next_entry` ends with a header read from a parser
left by the scan, whose `header_start` is the offset of a local file header
signature. -/
theorem get_next_ret_one_inv (E : InflateEngine) (src : List Byte) (fuel : Nat)
    (zp0 zp : ZipParser) (r : Nat)
    (h : zip_get_next_entry E src fuel zp0 = Run.ret (r, zp)) (hr : r ≠ 0) :
    r = 1 ∧ ∃ (zq : ZipParser) (o : Nat), zq.header_start = (o : Int) ∧
      sig_at src o = some LOCAL_HEADER_SIGNATURE ∧ HeaderRead src zq zp := by
  unfold zip_get_next_entry at h
  split at h
  · rename_i zp1 hclosed
    split at h
    · cases h; exact absurd rfl hr
    · rename_i r1 zq hne hscan
      rcases scan_ret_inv src fuel zp1 zq _ hscan with ⟨h0, _⟩ | ⟨_, o, _, hs, hz⟩
      · exact absurd h0 hne
      · obtain ⟨h1, hread⟩ := read_header_inv src zq zp r h hr
        exact ⟨h1, zq, o, by rw [hz], hs, hread⟩
    · cases h
    · cases h
    · cases h
  · cases h
  · cases h
  · cases h

/-! ## Skipping on advance -/

/-- C4 (fails on the code): over three stored entries at 0, 32 and 93, after
`advance, extract, advance` the parser is on the second entry (`header_start`
32, `data_start` 63, 30 payload bytes, not extracted) but `consumed` still
holds from the first; the next `zip_get_next_entry` does not skip the payload,
finds the bytes 50 4b 03 04 at its start and reports `header_start = 63`
instead of 93. -/
theorem advance_after_extract_scans_payload :
    observe (run_calls toy archive_signature_in_payload heap_aa 2
      [Call.advance, Call.extract true, Call.advance] zip_open)
      = Run.ret ([1, 1, 1], 32, 63, 63) ∧
    observe (run_calls toy archive_signature_in_payload heap_aa 2
      [Call.advance, Call.extract true, Call.advance, Call.advance] zip_open)
      = Run.ret ([1, 1, 1, 1], 63, 93, 93) := by
  constructor <;> decide!

/-! ## Store extraction -/

theorem fseek_set_cast (pos n : Nat) : fseek_set pos (n : Int) = n := by
  unfold fseek_set
  have : ¬ ((n : Int) < 0) := by omega
  simp only [this, if_false, Int.toNat_ofNat]

theorem store_buffer_full (garbage : Nat → Byte) (data : List Byte) (n : Nat)
    (h : data.length = n) : store_buffer garbage data n = data := by
  simp [store_buffer, h]

theorem store_buffer_length (garbage : Nat → Byte) (data : List Byte) (n : Nat)
    (h : data.length ≤ n) : (store_buffer garbage data n).length = n := by
  simp [store_buffer]
  omega

/-- What `extract_current` does on a store record whose `data_start` is not negative. -/
theorem extract_store (E : InflateEngine) (src : List Byte) (garbage : Nat → Byte)
    (fuel : Nat) (zp : ZipParser) (d : Nat) (h_store : zp.compression = COMPRESSION_STORE)
    (h_ds : zp.data_start = (d : Int)) :
    extract_current E src garbage fuel zp true =
      Run.ret (1, { zp with fp := d + (fread src d zp.comp_size).length, consumed := true },
        store_buffer garbage (fread src d zp.comp_size) zp.comp_size) := by
  simp only [extract_current, h_ds, fseek_set_cast, h_store, if_true, Bool.true_eq_false,
    if_false]

/-- After a successful advance the parser stands on the data it found; its
`header_start` is the offset of the header when the name written from
`filename` on stopped before that member. -/
theorem get_next_on_entry (E : InflateEngine) (src : List Byte) (fuel : Nat)
    (zp0 zp : ZipParser) (h : zip_get_next_entry E src fuel zp0 = Run.ret (1, zp)) :
    ∃ o : Nat, (zp.name_length < OFFSET_HEADER_START → zp.header_start = (o : Int)) ∧
      sig_at src o = some LOCAL_HEADER_SIGNATURE ∧
      (fread src o 30).length = 30 ∧
      zp.data_start = (zp.fp : Int) ∧
      zp.fp = o + 30 + (fread src (o + 30) (decode_lfh (fread src o 30)).name_length).length
        + (decode_lfh (fread src o 30)).extra_length ∧
      zp.compression = (decode_lfh (fread src o 30)).compression ∧
      zp.flags = (decode_lfh (fread src o 30)).flags ∧
      zp.comp_size = (decode_lfh (fread src o 30)).compressed_size ∧
      zp.name_length = (decode_lfh (fread src o 30)).name_length := by
  obtain ⟨_, zq, o, ho, hs, hr⟩ := get_next_ret_one_inv E src fuel zp0 zp 1 h (by decide)
  have hseek : fseek_set zq.fp zq.header_start = o := by rw [ho, fseek_set_cast]
  have h0 := hr.header_start
  have h1 := hr.raw_length
  have h2 := hr.fp
  have h3 := hr.compression
  have h4 := hr.flags
  have h5 := hr.comp_size
  have h6 := hr.name_length
  rw [hseek] at h0 h1 h2 h3 h4 h5 h6
  exact ⟨o, fun hn => by rw [h0 (h6 ▸ hn), ho], hs, h1, hr.data_start, h2, h3, h4, h5, h6⟩

/-- C5: on an entry that `zip_get_next_entry` advanced onto, whose method is
store, `comp_size` is the compressed size `S` declared by the header the
advance found (at offset `o`, `data_start` lying behind its name and extra
field); with the `S` payload bytes present in the archive, `extract_current`
(output file opened) returns 1 and writes exactly the `S` bytes of the archive
that start at `data_start`. -/
theorem store_extract_writes_declared_bytes (E : InflateEngine) (src : List Byte)
    (garbage : Nat → Byte) (fuel fuel1 : Nat) (zp0 zp : ZipParser)
    (h_adv : zip_get_next_entry E src fuel zp0 = Run.ret (1, zp))
    (h_store : zp.compression = COMPRESSION_STORE)
    (h_present : zp.data_start.toNat + zp.comp_size ≤ src.length) :
    (∃ o : Nat, sig_at src o = some LOCAL_HEADER_SIGNATURE ∧
      zp.comp_size = (decode_lfh (fread src o 30)).compressed_size ∧
      zp.data_start =
        ((o + 30 + (fread src (o + 30) (decode_lfh (fread src o 30)).name_length).length
          + (decode_lfh (fread src o 30)).extra_length : Nat) : Int) ∧
      (zp.name_length < OFFSET_HEADER_START → zp.header_start = (o : Int))) ∧
    ∃ zp1, extract_current E src garbage fuel1 zp true =
        Run.ret (1, zp1, (src.drop zp.data_start.toNat).take zp.comp_size) ∧
      ((src.drop zp.data_start.toNat).take zp.comp_size).length = zp.comp_size := by
  obtain ⟨o, ho, hs, _, hds, hfp, _, _, hcs, _⟩ := get_next_on_entry E src fuel zp0 zp h_adv
  rw [hds] at h_present
  simp only [Int.toNat_ofNat] at h_present
  rw [hds]
  simp only [Int.toNat_ofNat]
  have hlen : (fread src zp.fp zp.comp_size).length = zp.comp_size := by
    rw [fread_length]; omega
  refine ⟨⟨o, hs, hcs, congrArg Nat.cast hfp, ho⟩,
    { zp with fp := zp.fp + (fread src zp.fp zp.comp_size).length, consumed := true },
    ?_, hlen⟩
  rw [extract_store E src garbage fuel1 zp zp.fp h_store hds, store_buffer_full _ _ _ hlen]
  rfl

/-- Witness for C5: the stored entry `a` of `archive_one_stored` declares 4
bytes; they are present; extraction writes `50 4b 03 04`. -/
theorem store_extract_writes_declared_bytes_witness :
    zip_get_next_entry toy archive_one_stored 1 zip_open
      = Run.ret (1, on_entry [0x61] 0 31 0 4 4) ∧
    ∃ zp1, extract_current toy archive_one_stored heap_aa 0 (on_entry [0x61] 0 31 0 4 4) true
      = Run.ret (1, zp1, [0x50, 0x4b, 0x03, 0x04]) := by
  have hadv : zip_get_next_entry toy archive_one_stored 1 zip_open
      = Run.ret (1, on_entry [0x61] 0 31 0 4 4) := by decide!
  refine ⟨hadv, ?_⟩
  obtain ⟨_, zp1, h1, _⟩ := store_extract_writes_declared_bytes toy archive_one_stored heap_aa
    1 0 zip_open (on_entry [0x61] 0 31 0 4 4) hadv rfl (by decide)
  exact ⟨zp1, h1⟩

/-- C8 (fails on the code): the stored entry of `archive_truncated_store`
declares 5 payload bytes and the archive ends after 2 of them; `extract_current`
returns 1 and writes 5 bytes, the last three being whatever the heap held. -/
theorem truncated_store_reports_success :
    archive_truncated_store.length = 33 ∧
    zip_get_next_entry toy archive_truncated_store 1 zip_open
      = Run.ret (1, on_entry [0x61] 0 31 0 5 5) ∧
    extract_current toy archive_truncated_store heap_aa 1 (on_entry [0x61] 0 31 0 5 5) true
      = Run.ret (1, { on_entry [0x61] 0 31 0 5 5 with fp := 33, consumed := true },
          [0x01, 0x02, 0xAA, 0xAA, 0xAA]) := by
  refine ⟨by decide, by decide!, by decide!⟩

/-! ## Unsupported methods -/

/-- C10: on an entry that `zip_get_next_entry` advanced onto whose compression
method is neither store (0) nor deflate (8), `extract_current` returns 0,
writes nothing and leaves every field of the parser as it was, the file
position being `data_start`; this holds whether or not the output file opens. -/
theorem unsupported_method_fails_without_consuming (E : InflateEngine) (src : List Byte)
    (garbage : Nat → Byte) (fuel fuel1 : Nat) (zp0 zp : ZipParser) (out_ok : Bool)
    (h_adv : zip_get_next_entry E src fuel zp0 = Run.ret (1, zp))
    (h_not_store : zp.compression ≠ COMPRESSION_STORE)
    (h_not_deflate : zp.compression ≠ COMPRESSION_DEFLATE) :
    extract_current E src garbage fuel1 zp out_ok = Run.ret (0, zp, []) ∧
      (zp.fp : Int) = zp.data_start := by
  obtain ⟨_, _, _, _, hds, _⟩ := get_next_on_entry E src fuel zp0 zp h_adv
  refine ⟨?_, hds.symm⟩
  cases out_ok with
  | false => simp only [extract_current, if_true]
  | true =>
    have hfs : fseek_set zp.fp zp.data_start = zp.fp := by rw [hds, fseek_set_cast]
    simp only [extract_current, hfs, h_not_store, h_not_deflate, if_false, Bool.true_eq_false]

/-- Witness for C10: the entry of `archive_unsupported_method` uses method 12;
extraction returns 0 and the parser stays at `data_start = 31`. -/
theorem unsupported_method_fails_without_consuming_witness :
    zip_get_next_entry toy archive_unsupported_method 1 zip_open
      = Run.ret (1, on_entry [0x61] 0 31 12 2 2) ∧
    extract_current toy archive_unsupported_method heap_aa 1 (on_entry [0x61] 0 31 12 2 2) true
      = Run.ret (0, on_entry [0x61] 0 31 12 2 2, []) ∧
    (((on_entry [0x61] 0 31 12 2 2).fp : Nat) : Int) = (on_entry [0x61] 0 31 12 2 2).data_start := by
  have hadv : zip_get_next_entry toy archive_unsupported_method 1 zip_open
      = Run.ret (1, on_entry [0x61] 0 31 12 2 2) := by decide!
  exact ⟨hadv, unsupported_method_fails_without_consuming toy archive_unsupported_method
    heap_aa 1 1 zip_open (on_entry [0x61] 0 31 12 2 2) true hadv (by decide) (by decide)⟩

/-! ## Deflate streams that never end -/

/-- What `extract_current` does on a deflate record whose `data_start` is not negative. -/
theorem extract_deflate (E : InflateEngine) (src : List Byte) (garbage : Nat → Byte)
    (fuel : Nat) (zp : ZipParser) (d : Nat) (h_deflate : zp.compression = COMPRESSION_DEFLATE)
    (h_ds : zp.data_start = (d : Int)) :
    extract_current E src garbage fuel zp true =
      match extract_outer E src fuel d (inflateInit2 E) 0 [] with
      | Run.ret r =>
        Run.ret (if r.ret = ZRet.Z_STREAM_END then 1 else 0,
          { zp with fp := d + r.total_in_size, consumed := true }, r.written)
      | Run.undef => Run.undef
      | Run.abort => Run.abort
      | Run.timeout => Run.timeout := by
  have hne : COMPRESSION_DEFLATE ≠ COMPRESSION_STORE := by decide
  have hc : ∀ (p t : Nat), fseek_set p ((d : Int) + (t : Int)) = d + t := by
    intro p t
    have := fseek_set_cast p (d + t)
    rwa [Nat.cast_add] at this
  simp only [extract_current, h_ds, fseek_set_cast, h_deflate, hne, if_true, if_false,
    Bool.true_eq_false, hc]

theorem truncated_deflate_spins : ∀ (fuel avail_out : Nat),
    extract_outer toy archive_truncated_deflate fuel 34
      { next_in := [], avail_out := avail_out, total_in := 3, state := ToyState.copy 2 }
      3 [0x01, 0x02] = Run.timeout := by
  intro fuel
  induction fuel with
  | zero => intro _; rfl
  | succ fuel ih =>
    intro avail_out
    have hread : fread archive_truncated_deflate 34 BUFFER_SIZE = [] := by decide
    cases fuel with
    | zero => simp only [extract_outer, extract_inner]
    | succ fuel =>
      have hinner : extract_inner toy (fuel + 1)
          { next_in := [], avail_out := avail_out, total_in := 3, state := ToyState.copy 2 }
          [0x01, 0x02]
          = Run.ret ({ next_in := [], avail_out := 4096, total_in := 3,
                       state := ToyState.copy 2 }, ZRet.Z_BUF_ERROR, [0x01, 0x02]) := by
        rfl
      have h := ih 4096
      unfold extract_outer
      simp only [hread, hinner]
      exact h

/-- C9 (fails on the code): the deflate entry of `archive_truncated_deflate`
ends before its stream does (the engine reports `Z_BUF_ERROR` at end of
input); `extract_current` does not return 0, it does not return at all: it is
out of fuel whatever the fuel. -/
theorem truncated_deflate_never_returns :
    zip_get_next_entry toy archive_truncated_deflate 1 zip_open
      = Run.ret (1, on_entry [0x61] 0 31 8 5 4) ∧
    ∀ fuel, extract_current toy archive_truncated_deflate heap_aa fuel
      (on_entry [0x61] 0 31 8 5 4) true = Run.timeout := by
  refine ⟨by decide!, ?_⟩
  intro fuel
  have hread : fread archive_truncated_deflate 31 BUFFER_SIZE = [0x04, 0x01, 0x02] := by decide
  have hout : extract_outer toy archive_truncated_deflate fuel 31 (inflateInit2 toy) 0 []
      = Run.timeout := by
    cases fuel with
    | zero => rfl
    | succ fuel =>
      cases fuel with
      | zero => simp only [extract_outer, extract_inner]
      | succ fuel =>
        have hinner : extract_inner toy (fuel + 1)
            { inflateInit2 toy with next_in := [0x04, 0x01, 0x02] } []
            = Run.ret ({ next_in := [], avail_out := 4094, total_in := 3,
                         state := ToyState.copy 2 }, ZRet.Z_OK, [0x01, 0x02]) := by
          rfl
        have h := truncated_deflate_spins (fuel + 1) 4094
        unfold extract_outer
        simp only [hread, hinner]
        exact h
  rw [extract_deflate toy archive_truncated_deflate heap_aa fuel (on_entry [0x61] 0 31 8 5 4) 31
    rfl rfl, hout]

/-! ## Deflate streams that decode to stream-end -/

theorem feeds_drop (payload input : List Byte) (k u : Nat) (h : Feeds payload k input) :
    Feeds payload (k + u) (input.drop u) := by
  unfold Feeds at h ⊢
  have h1 := congrArg (List.drop u) h
  rw [List.drop_take, List.drop_take, List.drop_drop] at h1
  rw [List.length_drop]
  have : payload.length - (k + u) = payload.length - k - u := by omega
  rw [this]
  exact h1

theorem feeds_fread (src payload : List Byte) (d k : Nat)
    (hp : (src.drop d).take payload.length = payload) (n : Nat) :
    Feeds payload k (fread src (d + k) n) := by
  unfold Feeds fread
  have e : payload.drop k = (src.drop (d + k)).take (payload.length - k) := by
    conv_lhs => rw [← hp]
    rw [List.drop_take, List.drop_drop]
  rw [e, List.take_take, List.take_take, List.length_take, List.take_eq_take]
  simp only [List.length_drop]
  omega

theorem inflate_eq (E : InflateEngine) (strm : z_stream E.State)
    (hu : (E.call strm.state strm.next_in strm.avail_out).used ≤ strm.next_in.length)
    (ho : (E.call strm.state strm.next_in strm.avail_out).out.length ≤ strm.avail_out) :
    inflate E strm =
      ({ next_in := strm.next_in.drop (E.call strm.state strm.next_in strm.avail_out).used
         avail_out := strm.avail_out - (E.call strm.state strm.next_in strm.avail_out).out.length
         total_in := strm.total_in + (E.call strm.state strm.next_in strm.avail_out).used
         state := (E.call strm.state strm.next_in strm.avail_out).state },
        (E.call strm.state strm.next_in strm.avail_out).out,
        (E.call strm.state strm.next_in strm.avail_out).ret) := by
  unfold inflate
  simp only [Nat.min_eq_left hu, List.take_of_length_le ho]

/-- The inner loop of `extract_current` under the contract: it returns, having
consumed a prefix of its input, either at stream-end or with the input used up. -/
theorem extract_inner_decodes (E : InflateEngine) (payload : List Byte) (usize : Nat)
    (inv : E.State → Nat → Nat → Prop)
    (hstep : Tracks E payload usize inv) :
    ∀ (m fuel : Nat) (strm : z_stream E.State) (k j : Nat) (w : List Byte),
      usize - j ≤ m → m < fuel → inv strm.state k j → Feeds payload k strm.next_in →
      ∃ (strm1 : z_stream E.State) (ret : ZRet) (w1 : List Byte) (k1 j1 : Nat),
        extract_inner E fuel strm w = Run.ret (strm1, ret, w1) ∧
        inv strm1.state k1 j1 ∧ k ≤ k1 ∧ k1 ≤ payload.length ∧ j ≤ j1 ∧ j1 ≤ usize ∧
        strm1.next_in = strm.next_in.drop (k1 - k) ∧ k1 - k ≤ strm.next_in.length ∧
        strm1.total_in = strm.total_in + (k1 - k) ∧
        w1.length = w.length + (j1 - j) ∧
        ((ret = ZRet.Z_STREAM_END ∧ k1 = payload.length ∧ j1 = usize) ∨
         (ret ≠ ZRet.Z_STREAM_END ∧ strm1.next_in = [] ∧ k1 < payload.length)) := by
  intro m
  induction m with
  | zero =>
    intro fuel strm k j w hm hf hinv hfeed
    obtain ⟨f, rfl⟩ : ∃ f, fuel = f + 1 := ⟨fuel - 1, by omega⟩
    obtain ⟨hu, ho, hk, hj, hinv1, hret, hend, hshort⟩ :=
      hstep strm.state k j strm.next_in BUFFER_SIZE hinv hfeed (by decide)
    have hinf := inflate_eq E { strm with avail_out := BUFFER_SIZE } hu ho
    simp only at hinf
    have hne : (E.call strm.state strm.next_in BUFFER_SIZE).ret ≠ ZRet.Z_STREAM_ERROR := by
      rcases hret with h | h | h <;> rw [h] <;> decide
    have hB : BUFFER_SIZE = 4096 := rfl
    have hlt : (E.call strm.state strm.next_in BUFFER_SIZE).out.length < BUFFER_SIZE := by omega
    have hao : ¬ (BUFFER_SIZE - (E.call strm.state strm.next_in BUFFER_SIZE).out.length = 0) := by
      omega
    unfold extract_inner
    simp only [hinf, hne, if_false, hao]
    refine ⟨_, _, _, k + (E.call strm.state strm.next_in BUFFER_SIZE).used,
      j + (E.call strm.state strm.next_in BUFFER_SIZE).out.length, rfl, hinv1, by omega, hk,
      by omega, hj, ?_, ?_, ?_, ?_, ?_⟩
    · simp only [Nat.add_sub_cancel_left]
    · simp only [Nat.add_sub_cancel_left]; exact hu
    · simp only [Nat.add_sub_cancel_left]
    · simp only [List.length_append, Nat.add_sub_cancel_left]
    · by_cases he : (E.call strm.state strm.next_in BUFFER_SIZE).ret = ZRet.Z_STREAM_END
      · left; exact ⟨he, (hend he).1, (hend he).2⟩
      · right
        obtain ⟨h1, h2⟩ := hshort he hlt
        exact ⟨he, by simp only [h1, List.drop_length], h2⟩
  | succ m ih =>
    intro fuel strm k j w hm hf hinv hfeed
    obtain ⟨f, rfl⟩ : ∃ f, fuel = f + 1 := ⟨fuel - 1, by omega⟩
    obtain ⟨hu, ho, hk, hj, hinv1, hret, hend, hshort⟩ :=
      hstep strm.state k j strm.next_in BUFFER_SIZE hinv hfeed (by decide)
    have hinf := inflate_eq E { strm with avail_out := BUFFER_SIZE } hu ho
    simp only at hinf
    have hne : (E.call strm.state strm.next_in BUFFER_SIZE).ret ≠ ZRet.Z_STREAM_ERROR := by
      rcases hret with h | h | h <;> rw [h] <;> decide
    have hB : BUFFER_SIZE = 4096 := rfl
    unfold extract_inner
    simp only [hinf, hne, if_false]
    by_cases hfull : BUFFER_SIZE - (E.call strm.state strm.next_in BUFFER_SIZE).out.length = 0
    · -- the output buffer is full: the loop goes round
      rw [if_pos hfull]
      obtain ⟨strm1, ret, w1, k1, j1, hrun, hi, hk1, hk2, hj1, hj2, hn, hnl, ht, hw, hfin⟩ :=
        ih f
          { next_in := strm.next_in.drop (E.call strm.state strm.next_in BUFFER_SIZE).used
            avail_out := BUFFER_SIZE - (E.call strm.state strm.next_in BUFFER_SIZE).out.length
            total_in := strm.total_in + (E.call strm.state strm.next_in BUFFER_SIZE).used
            state := (E.call strm.state strm.next_in BUFFER_SIZE).state }
          (k + (E.call strm.state strm.next_in BUFFER_SIZE).used)
          (j + (E.call strm.state strm.next_in BUFFER_SIZE).out.length)
          (w ++ (E.call strm.state strm.next_in BUFFER_SIZE).out)
          (by omega) (by omega) hinv1 (feeds_drop _ _ _ _ hfeed)
      simp only [List.length_drop, List.drop_drop, List.length_append] at hn hnl ht hw
      refine ⟨strm1, ret, w1, k1, j1, hrun, hi, by omega, hk2, by omega, hj2, ?_, by omega,
        by omega, by omega, hfin⟩
      rw [hn]
      congr 1
      omega
    · rw [if_neg hfull]
      have hlt : (E.call strm.state strm.next_in BUFFER_SIZE).out.length < BUFFER_SIZE := by
        omega
      refine ⟨_, _, _, k + (E.call strm.state strm.next_in BUFFER_SIZE).used,
        j + (E.call strm.state strm.next_in BUFFER_SIZE).out.length, rfl, hinv1, by omega, hk,
        by omega, hj, ?_, ?_, ?_, ?_, ?_⟩
      · simp only [Nat.add_sub_cancel_left]
      · simp only [Nat.add_sub_cancel_left]; exact hu
      · simp only [Nat.add_sub_cancel_left]
      · simp only [List.length_append, Nat.add_sub_cancel_left]
      · by_cases he : (E.call strm.state strm.next_in BUFFER_SIZE).ret = ZRet.Z_STREAM_END
        · left; exact ⟨he, (hend he).1, (hend he).2⟩
        · right
          obtain ⟨h1, h2⟩ := hshort he hlt
          exact ⟨he, by simp only [h1, List.drop_length], h2⟩

/-- The outer loop of `extract_current` under the contract, started after `k`
payload bytes: it returns at stream-end with `total_in_size` equal to the
payload length, which is also what the engine counts in `total_in`. -/
theorem extract_outer_decodes (E : InflateEngine) (src payload : List Byte) (usize d : Nat)
    (inv : E.State → Nat → Nat → Prop) (hstep : Tracks E payload usize inv)
    (hp : (src.drop d).take payload.length = payload) :
    ∀ (m fuel : Nat) (strm : z_stream E.State) (k j : Nat) (w : List Byte),
      payload.length - k ≤ m → m + (usize - j) + 1 < fuel → inv strm.state k j →
      k ≤ payload.length → j ≤ usize →
      ∃ r : InflateRun E.State, extract_outer E src fuel (d + k) strm k w = Run.ret r ∧
        r.ret = ZRet.Z_STREAM_END ∧ r.total_in_size = payload.length ∧
        r.strm.total_in = strm.total_in + (payload.length - k) ∧
        r.written.length = w.length + (usize - j) := by
  have hlen : d + payload.length ≤ src.length ∨ payload.length = 0 := by
    have h := congrArg List.length hp
    simp only [List.length_take, List.length_drop] at h
    omega
  intro m
  induction m with
  | zero =>
    intro fuel strm k j w hm hf hinv hk hj
    obtain ⟨f, rfl⟩ : ∃ f, fuel = f + 1 := ⟨fuel - 1, by omega⟩
    obtain ⟨strm1, ret, w1, k1, j1, hrun, hi, hk1, hk2, hj1, hj2, hn, hnl, ht, hw, hfin⟩ :=
      extract_inner_decodes E payload usize inv hstep (usize - j) f
        { strm with next_in := fread src (d + k) BUFFER_SIZE } k j w (le_refl _) (by omega)
        hinv (feeds_fread src payload d k hp BUFFER_SIZE)
    simp only at hn hnl ht
    rcases hfin with ⟨he, hke, hje⟩ | ⟨hne, _, hlt⟩
    · unfold extract_outer
      simp only [hrun, he, ne_eq, not_true_eq_false, if_false]
      refine ⟨_, rfl, rfl, ?_, ?_, ?_⟩
      · simp only [z_stream.avail_in, hn, List.length_drop]; omega
      · simp only [ht]; omega
      · simp only [hw]; omega
    · omega
  | succ m ih =>
    intro fuel strm k j w hm hf hinv hk hj
    obtain ⟨f, rfl⟩ : ∃ f, fuel = f + 1 := ⟨fuel - 1, by omega⟩
    obtain ⟨strm1, ret, w1, k1, j1, hrun, hi, hk1, hk2, hj1, hj2, hn, hnl, ht, hw, hfin⟩ :=
      extract_inner_decodes E payload usize inv hstep (usize - j) f
        { strm with next_in := fread src (d + k) BUFFER_SIZE } k j w (le_refl _) (by omega)
        hinv (feeds_fread src payload d k hp BUFFER_SIZE)
    simp only at hn hnl ht
    rcases hfin with ⟨he, hke, hje⟩ | ⟨hne, hnil, hlt⟩
    · unfold extract_outer
      simp only [hrun, he, ne_eq, not_true_eq_false, if_false]
      refine ⟨_, rfl, rfl, ?_, ?_, ?_⟩
      · simp only [z_stream.avail_in, hn, List.length_drop]; omega
      · simp only [ht]; omega
      · simp only [hw]; omega
    · -- the chunk is used up and the stream goes on
      have hrl := fread_length src (d + k) BUFFER_SIZE
      have hB : BUFFER_SIZE = 4096 := rfl
      have hall : k1 - k = (fread src (d + k) BUFFER_SIZE).length := by
        have h := congrArg List.length hn
        rw [hnil] at h
        simp only [List.length_nil, List.length_drop] at h
        omega
      have hpos : 0 < (fread src (d + k) BUFFER_SIZE).length := by
        rw [hrl, hB]; omega
      obtain ⟨r, hr, h1, h2, h3, h4⟩ := ih f strm1 k1 j1 w1 (by omega) (by omega) hi hk2 hj2
      have hfp : d + k + (fread src (d + k) BUFFER_SIZE).length = d + k1 := by omega
      have htot : k + ((fread src (d + k) BUFFER_SIZE).length - strm1.avail_in) = k1 := by
        simp only [z_stream.avail_in, hnil, List.length_nil]; omega
      unfold extract_outer
      simp only [hrun, hne, ne_eq, not_false_eq_true, if_true, hfp, htot]
      exact ⟨r, hr, h1, h2, by rw [h3, ht]; omega, by rw [h4, hw]; omega⟩

/-- The loops of `close_entry` are those of `extract_current` without the writes. -/
theorem close_inner_eq (E : InflateEngine) : ∀ (fuel : Nat) (strm : z_stream E.State)
    (w : List Byte),
    close_inner E fuel strm =
      match extract_inner E fuel strm w with
      | Run.ret (strm1, ret, _) => Run.ret (strm1, ret)
      | Run.undef => Run.undef
      | Run.abort => Run.abort
      | Run.timeout => Run.timeout := by
  intro fuel
  induction fuel with
  | zero => intro _ _; rfl
  | succ fuel ih =>
    intro strm w
    unfold close_inner extract_inner
    simp only
    split_ifs
    · rfl
    · exact ih _ _
    · rfl

theorem close_outer_eq (E : InflateEngine) (src : List Byte) : ∀ (fuel fp : Nat)
    (strm : z_stream E.State) (total : Nat) (w : List Byte),
    close_outer E src fuel fp strm total =
      match extract_outer E src fuel fp strm total w with
      | Run.ret r => Run.ret { r with written := [] }
      | Run.undef => Run.undef
      | Run.abort => Run.abort
      | Run.timeout => Run.timeout := by
  intro fuel
  induction fuel with
  | zero => intro _ _ _ _; rfl
  | succ fuel ih =>
    intro fp strm total w
    unfold close_outer extract_outer
    simp only
    rw [close_inner_eq E fuel _ w]
    cases h : extract_inner E fuel { strm with next_in := fread src fp BUFFER_SIZE } w with
    | ret a =>
      obtain ⟨strm1, ret, w1⟩ := a
      simp only
      split_ifs
      · exact ih _ _ _ _
      · rfl
    | undef => rfl
    | abort => rfl
    | timeout => rfl

theorem toy_copy_tracks (N r pre k j : Nat) (input : List Byte) (avail_out : Nat)
    (hr : k + pre + r = N + 1) (hj : j + r = N) (hao : 0 < avail_out) (hpre1 : pre ≤ 1) :
    (toy_copy r input avail_out pre).used ≤ pre + input.length ∧
    (toy_copy r input avail_out pre).out.length ≤ avail_out ∧
    k + (toy_copy r input avail_out pre).used ≤ N + 1 ∧
    j + (toy_copy r input avail_out pre).out.length ≤ N ∧
    toy_inv N (toy_copy r input avail_out pre).state (k + (toy_copy r input avail_out pre).used)
      (j + (toy_copy r input avail_out pre).out.length) ∧
    ((toy_copy r input avail_out pre).ret = ZRet.Z_STREAM_END ∨
      (toy_copy r input avail_out pre).ret = ZRet.Z_OK ∨
      (toy_copy r input avail_out pre).ret = ZRet.Z_BUF_ERROR) ∧
    ((toy_copy r input avail_out pre).ret = ZRet.Z_STREAM_END →
      k + (toy_copy r input avail_out pre).used = N + 1 ∧
      j + (toy_copy r input avail_out pre).out.length = N) ∧
    ((toy_copy r input avail_out pre).ret ≠ ZRet.Z_STREAM_END →
      (toy_copy r input avail_out pre).out.length < avail_out →
      (toy_copy r input avail_out pre).used = pre + input.length ∧
      k + (toy_copy r input avail_out pre).used < N + 1) := by
  unfold toy_copy
  simp only
  by_cases h1 : min r (min input.length avail_out) = r
  · rw [if_pos h1]
    simp only [List.length_take, toy_inv, true_or, ne_eq, not_true_eq_false, false_implies,
      forall_true_left, true_and, and_true]
    omega
  · rw [if_neg h1]
    by_cases h2 : min r (min input.length avail_out) = 0
    · rw [if_pos h2]
      by_cases hp : pre = 0
      · simp only [hp, if_true, List.length_nil, toy_inv, or_true, ne_eq, reduceCtorEq,
          not_false_eq_true, false_implies, forall_true_left, true_and, and_true, false_or]
        omega
      · simp only [hp, if_false, List.length_nil, toy_inv, or_true, true_or, ne_eq, reduceCtorEq,
          not_false_eq_true, false_implies, forall_true_left, true_and, and_true, false_or]
        omega
    · rw [if_neg h2]
      simp only [List.length_take, toy_inv, or_true, true_or, ne_eq, reduceCtorEq,
        not_false_eq_true, false_implies, forall_true_left, true_and, and_true, false_or]
      omega

/-- The engine `toy` decodes a length byte followed by that many literals. -/
theorem toy_decodes (n : Byte) (lits : List Byte) (h : n.toNat = lits.length) :
    Decodes toy (n :: lits) lits.length := by
  refine ⟨toy_inv lits.length, ⟨rfl, rfl⟩, ?_⟩
  intro s k j input avail_out hinv hfeed hao
  cases s with
  | done =>
    obtain ⟨hk, hj⟩ := hinv
    simp only [toy, toy_call, toy_inv, List.length_cons, List.length_nil, true_or, ne_eq,
      not_true_eq_false, false_implies, forall_true_left, true_and, and_true]
    omega
  | copy r =>
    obtain ⟨h0, hk, hj⟩ := hinv
    have := toy_copy_tracks lits.length r 0 k j input avail_out (by omega) hj hao (by omega)
    simpa only [toy, toy_call, List.length_cons, Nat.zero_add] using this
  | start =>
    obtain ⟨hk, hj⟩ := hinv
    subst hk hj
    cases input with
    | nil =>
      simp only [toy, toy_call, toy_inv, List.length_cons, List.length_nil, or_true, ne_eq,
        reduceCtorEq, not_false_eq_true, false_implies, forall_true_left, true_and, and_true,
        false_or]
      omega
    | cons b rest =>
      have hb : b = n := by
        unfold Feeds at hfeed
        simp only [List.length_cons, Nat.sub_zero, List.drop_zero, List.take_succ_cons,
          List.cons.injEq] at hfeed
        exact hfeed.1
      subst hb
      have := toy_copy_tracks lits.length b.toNat 1 0 0 rest avail_out (by omega) (by omega) hao
        (by omega)
      simp only [toy, toy_call, List.length_cons]
      rw [h] at this ⊢
      refine ⟨by omega, this.2.1, this.2.2.1, this.2.2.2.1, this.2.2.2.2.1, this.2.2.2.2.2.1,
        this.2.2.2.2.2.2.1, ?_⟩
      intro h1 h2
      have := this.2.2.2.2.2.2.2 h1 h2
      omega

/-- What `close_entry` does on a deflate record whose `data_start` is not negative. -/
theorem close_deflate (E : InflateEngine) (src : List Byte) (fuel : Nat) (zp : ZipParser)
    (d : Nat) (h_deflate : zp.compression = COMPRESSION_DEFLATE)
    (h_ds : zp.data_start = (d : Int)) :
    close_entry E src fuel zp =
      match close_outer E src fuel d (inflateInit2 E) 0 with
      | Run.ret r => Run.ret (reset_entry { zp with fp := d + r.total_in_size })
      | Run.undef => Run.undef
      | Run.abort => Run.abort
      | Run.timeout => Run.timeout := by
  have hc : ∀ (p t : Nat), fseek_set p ((d : Int) + (t : Int)) = d + t := by
    intro p t
    have := fseek_set_cast p (d + t)
    rwa [Nat.cast_add] at this
  simp only [close_entry, h_ds, fseek_set_cast, h_deflate, if_true, hc]

/-- The decoding loops on a stream the engine decodes: loop results and the
position both functions leave. -/
theorem deflate_decodes_runs (E : InflateEngine) (src : List Byte)
    (garbage : Nat → Byte) (zp : ZipParser) (d : Nat) (payload : List Byte) (usize fuel : Nat)
    (h_deflate : zp.compression = COMPRESSION_DEFLATE)
    (h_ds : zp.data_start = (d : Int))
    (h_present : (src.drop d).take payload.length = payload)
    (h_dec : Decodes E payload usize)
    (h_fuel : payload.length + usize + 2 ≤ fuel) :
    (∃ r : InflateRun E.State,
      extract_outer E src fuel d (inflateInit2 E) 0 [] = Run.ret r ∧
      r.ret = ZRet.Z_STREAM_END ∧ r.total_in_size = r.strm.total_in ∧
      r.total_in_size = payload.length ∧ r.written.length = usize ∧
      extract_current E src garbage fuel zp true =
        Run.ret (1, { zp with fp := d + payload.length, consumed := true }, r.written)) ∧
    (∃ r : InflateRun E.State,
      close_outer E src fuel d (inflateInit2 E) 0 = Run.ret r ∧
      r.ret = ZRet.Z_STREAM_END ∧ r.total_in_size = r.strm.total_in ∧
      r.total_in_size = payload.length ∧
      close_entry E src fuel zp = Run.ret (reset_entry { zp with fp := d + payload.length })) := by
  obtain ⟨inv, hinit, hstep⟩ := h_dec
  obtain ⟨r, hr, h1, h2, h3, h4⟩ := extract_outer_decodes E src payload usize d inv hstep
    h_present payload.length fuel (inflateInit2 E) 0 0 [] (by omega) (by omega) hinit
    (Nat.zero_le _) (Nat.zero_le _)
  simp only [Nat.add_zero] at hr
  have h3' : r.strm.total_in = payload.length := by
    rw [h3]; simp only [inflateInit2, Nat.zero_add, Nat.sub_zero]
  have h4' : r.written.length = usize := by
    rw [h4]; simp only [List.length_nil, Nat.zero_add, Nat.sub_zero]
  constructor
  · refine ⟨r, hr, h1, by rw [h2, h3'], h2, h4', ?_⟩
    rw [extract_deflate E src garbage fuel zp d h_deflate h_ds, hr]
    simp only [h1, if_true, h2]
  · refine ⟨{ r with written := [] }, ?_, h1, by simp only [h2, h3'], h2, ?_⟩
    · rw [close_outer_eq E src fuel d (inflateInit2 E) 0 [], hr]
    · rw [close_deflate E src fuel zp d h_deflate h_ds,
        close_outer_eq E src fuel d (inflateInit2 E) 0 [], hr]
      simp only [h2]

/-- C6: for a deflate record whose stream `payload` lies at `data_start` and
is decoded to stream-end by the engine, the loops of `extract_current` and of
`close_entry` return (given fuel `payload.length + usize + 2`) with
`total_in_size` equal to the number of bytes the engine consumed (`total_in`),
which is the length of the payload, and both functions leave the source at
`data_start + payload.length`.  Nothing is assumed about `comp_size`,
`uncomp_size` or `flags`, so the declared sizes play no part. -/
theorem deflate_accounting_is_true_length (E : InflateEngine) (src : List Byte)
    (garbage : Nat → Byte) (zp : ZipParser) (d : Nat) (payload : List Byte) (usize fuel : Nat)
    (h_deflate : zp.compression = COMPRESSION_DEFLATE)
    (h_ds : zp.data_start = (d : Int))
    (h_present : (src.drop d).take payload.length = payload)
    (h_dec : Decodes E payload usize)
    (h_fuel : payload.length + usize + 2 ≤ fuel) :
    (∃ r : InflateRun E.State,
      extract_outer E src fuel d (inflateInit2 E) 0 [] = Run.ret r ∧
      r.ret = ZRet.Z_STREAM_END ∧ r.total_in_size = r.strm.total_in ∧
      r.total_in_size = payload.length ∧ r.written.length = usize ∧
      extract_current E src garbage fuel zp true =
        Run.ret (1, { zp with fp := d + payload.length, consumed := true }, r.written)) ∧
    (∃ r : InflateRun E.State,
      close_outer E src fuel d (inflateInit2 E) 0 = Run.ret r ∧
      r.ret = ZRet.Z_STREAM_END ∧ r.total_in_size = r.strm.total_in ∧
      r.total_in_size = payload.length ∧
      close_entry E src fuel zp = Run.ret (reset_entry { zp with fp := d + payload.length })) :=
  deflate_decodes_runs E src garbage zp d payload usize fuel h_deflate h_ds h_present h_dec
    h_fuel

/-- Witness for C6: the entry of `archive_deflate_descriptor` has bit 3 set and
declared sizes 0; its 5-byte stream is present and decoded by `toy`; extraction
and skipping both leave the source at 31 + 5. -/
theorem deflate_accounting_is_true_length_witness :
    zip_get_next_entry toy archive_deflate_descriptor 1 zip_open
      = Run.ret (1, on_descriptor_entry) ∧
    (∃ written, extract_current toy archive_deflate_descriptor heap_aa 11 on_descriptor_entry true
      = Run.ret (1, { on_descriptor_entry with fp := 31 + 5, consumed := true }, written)) ∧
    close_entry toy archive_deflate_descriptor 11 on_descriptor_entry
      = Run.ret (reset_entry { on_descriptor_entry with fp := 31 + 5 }) := by
  have h := deflate_accounting_is_true_length toy archive_deflate_descriptor heap_aa
    on_descriptor_entry 31 [0x04, 0x50, 0x4b, 0x03, 0x04] 4 11
    rfl rfl (by decide) (toy_decodes 0x04 [0x50, 0x4b, 0x03, 0x04] (by decide)) (by decide)
  obtain ⟨⟨r, _, _, _, _, _, he⟩, ⟨_, _, _, _, _, hc⟩⟩ := h
  exact ⟨by decide!, ⟨r.written, he⟩, hc⟩

/-! ## The driver on well-formed archives -/

theorem fread_append (a b c : List Byte) (n : Nat) (h : b.length = n) :
    fread (a ++ (b ++ c)) a.length n = b := by
  unfold fread
  rw [List.drop_left' rfl, List.take_left' h]

theorem sig_at_header (header rest : List Byte) (h : header.length = 30) :
    sig_at (header ++ rest) 0 = some (decode_lfh header).signature := by
  match header, h with
  | b0 :: b1 :: b2 :: b3 :: t, _ =>
    simp [sig_at, decode_lfh, byteAt]

theorem store_name_length (filename name : List Byte) (h : filename.length = 256)
    (hn : name.length ≤ 256) (n : Nat) : (store_name filename name n).length = 256 := by
  simp only [store_name, List.length_set, List.length_append, List.length_drop]
  omega

theorem c_str_store_name (filename name : List Byte) (h : filename.length = 256)
    (hn : name.length ≤ 255) (h0 : (0 : Byte) ∉ name) :
    c_str (store_name filename name name.length) = name := by
  unfold c_str store_name
  rw [List.set_append]
  simp only [Nat.lt_irrefl, if_false, Nat.sub_self]
  have hne : filename.drop name.length ≠ [] := by
    intro hd
    have := congrArg List.length hd
    simp only [List.length_drop, List.length_nil] at this
    omega
  obtain ⟨x, t, ht⟩ := List.exists_cons_of_ne_nil hne
  rw [ht, List.set_cons_zero, List.takeWhile_append]
  have hall : List.takeWhile (fun b => b != 0) name = name := by
    rw [List.takeWhile_eq_self_iff]
    intro b hb
    simp only [bne_iff_ne, ne_eq]
    intro hb0
    exact h0 (hb0 ▸ hb)
  simp only [hall, if_true, List.takeWhile_cons, bne_self_eq_false, Bool.false_eq_true,
    if_false, List.append_nil]

theorem store_name_take (filename rest name : List Byte) (n : Nat)
    (h : filename.length = 256) (hk : name.length ≤ n) (hn : n < 256) :
    (store_name (filename ++ rest) name n).take FILENAME_SIZE = store_name filename name n := by
  unfold store_name FILENAME_SIZE
  rw [List.drop_append_of_le_length (by omega), ← List.append_assoc, List.set_append,
    if_pos (by simp only [List.length_append, List.length_drop]; omega)]
  exact List.take_left' (by
    simp only [List.length_set, List.length_append, List.length_drop]; omega)

theorem c_str_append (a rest : List Byte) (h : (0 : Byte) ∈ a) : c_str (a ++ rest) = c_str a := by
  induction a with
  | nil => cases h
  | cons x t ih =>
    unfold c_str at ih ⊢
    by_cases hx : x = 0
    · subst hx
      simp only [List.cons_append, List.takeWhile_cons, bne_self_eq_false, Bool.false_eq_true,
        if_false]
    · have hb : (x != 0) = true := by simpa using hx
      simp only [List.cons_append, List.takeWhile_cons, hb, if_true]
      congr 1
      apply ih
      rcases List.mem_cons.mp h with h1 | h1
      · exact absurd h1.symm hx
      · exact h1

theorem nul_mem_store_name (filename name : List Byte) (n : Nat)
    (h : n < (name ++ filename.drop name.length).length) :
    (0 : Byte) ∈ store_name filename name n := by
  unfold store_name
  exact List.mem_iff_getElem.mpr ⟨n, by simpa using h, by simp⟩

theorem c_str_record_tail (zp : ZipParser) (fn name : List Byte) (hfn : fn.length = 256)
    (hn : name.length ≤ 255) (h0 : (0 : Byte) ∉ name)
    (hfile : zp.filename = store_name fn name name.length) :
    c_str (record_tail zp) = name := by
  unfold record_tail
  rw [hfile, c_str_append _ _ (nul_mem_store_name fn name name.length (by
    simp only [List.length_append, List.length_drop]; omega))]
  exact c_str_store_name fn name hfn hn h0

theorem flags_not_descriptor {flags : Nat} (h : flags &&& FLAG_DATA_DESCRIPTOR = 0) :
    store_assertion flags = true := by
  unfold store_assertion
  simp only [bne_iff_ne, ne_eq]
  intro h8
  rw [h8] at h
  exact absurd h (by decide)

/-- The header read on a well-formed entry that lies at offset `pre.length`. -/
theorem read_header_entry (E : InflateEngine) (src pre post : List Byte) (e : Entry)
    (zq : ZipParser) (fp1 : Nat) (hsrc : src = pre ++ (e.bytes ++ post))
    (hwf : e.WellFormed E) (hfl : zq.filename.length = 256) :
    read_header src { zq with fp := fp1, header_start := (pre.length : Int) } =
      Run.ret (1,
        { fp := pre.length + 30 + e.name.length + e.extra.length
          filename := store_name zq.filename e.name e.name.length
          comp_size := e.payload.length
          uncomp_size := (decode_lfh e.header).uncompressed_size
          compression := (decode_lfh e.header).compression
          name_length := e.name.length
          extra_length := e.extra.length
          flags := (decode_lfh e.header).flags
          data_start := ((pre.length + 30 + e.name.length + e.extra.length : Nat) : Int)
          header_start := (pre.length : Int)
          consumed := zq.consumed }) := by
  have hraw : fread src pre.length 30 = e.header := by
    rw [hsrc]
    unfold Entry.bytes
    rw [List.append_assoc]
    exact fread_append pre e.header _ 30 hwf.header_length
  have hname : fread src (pre.length + 30) e.name.length = e.name := by
    rw [hsrc]
    unfold Entry.bytes
    have h1 : pre ++ (e.header ++ (e.name ++ (e.extra ++ e.payload)) ++ post)
        = (pre ++ e.header) ++ (e.name ++ ((e.extra ++ e.payload) ++ post)) := by
      simp only [List.append_assoc]
    have h2 : pre.length + 30 = (pre ++ e.header).length := by
      rw [List.length_append, hwf.header_length]
    rw [h1, h2]
    exact fread_append _ e.name _ _ rfl
  have hsa := flags_not_descriptor hwf.no_descriptor
  have hle := hwf.name_le
  have hrec : ¬ (RECORD_TAIL_SIZE ≤ e.name.length) := by unfold RECORD_TAIL_SIZE; omega
  have hcon : ¬ (OFFSET_CONSUMED ≤ e.name.length) := by unfold OFFSET_CONSUMED; omega
  have hun : e.name.length < OFFSET_UNCOMP_SIZE := by unfold OFFSET_UNCOMP_SIZE; omega
  have hhs : e.name.length < OFFSET_HEADER_START := by unfold OFFSET_HEADER_START; omega
  have hco : e.name.length < OFFSET_CONSUMED := by unfold OFFSET_CONSUMED; omega
  have htake : ∀ x : Nat,
      (store_name (record_tail { zq with fp := x, header_start := (pre.length : Int) }) e.name
        e.name.length).take FILENAME_SIZE = store_name zq.filename e.name e.name.length :=
    fun x => store_name_take zq.filename _ e.name e.name.length hfl (le_refl _) (by omega)
  unfold read_header
  simp only [fseek_set_cast, hraw, hwf.header_length, ne_eq, not_true_eq_false, if_false,
    hwf.signature, hwf.name_length, hrec, hcon, hun, hhs, hco, if_true, htake, hname,
    hwf.no_descriptor, false_and, hsa, Bool.true_eq_false, and_false, hwf.extra_length,
    hwf.compressed_size]

/-- Advancing onto a well-formed entry that lies where the parser is in step. -/
theorem advance_onto_entry (E : InflateEngine) (src pre post : List Byte) (e : Entry)
    (zp : ZipParser) (T fuel : Nat) (hsrc : src = pre ++ (e.bytes ++ post))
    (hwf : e.WellFormed E) (hsync : Synced E src T zp pre.length) (hT : T ≤ fuel)
    (h1 : 1 ≤ fuel) :
    ∃ (zp1 : ZipParser) (fn : List Byte), fn.length = 256 ∧
      zip_get_next_entry E src fuel zp = Run.ret (1, zp1) ∧
      zp1.fp = pre.length + 30 + e.name.length + e.extra.length ∧
      zp1.filename = store_name fn e.name e.name.length ∧
      zp1.comp_size = e.payload.length ∧
      zp1.compression = (decode_lfh e.header).compression ∧
      zp1.data_start = ((pre.length + 30 + e.name.length + e.extra.length : Nat) : Int) ∧
      zp1.header_start = (pre.length : Int) := by
  obtain ⟨zq, hfp, hfl, hclose⟩ := hsync
  have hsig : sig_at src pre.length = some LOCAL_HEADER_SIGNATURE := by
    have h := sig_at_append_right pre (e.bytes ++ post) 0
    rw [Nat.add_zero] at h
    rw [hsrc, h]
    unfold Entry.bytes
    rw [List.append_assoc, sig_at_header _ _ hwf.header_length, hwf.signature]
  obtain ⟨fp1, hscan⟩ := scan_first_signature src pre.length LOCAL_HEADER_SIGNATURE hsig
    (by decide) fuel zq (by omega) (by intro p v1 hp hp2; omega) (by omega)
  rw [if_pos rfl] at hscan
  have hadv : zip_get_next_entry E src fuel zp
      = read_header src { zq with fp := fp1, header_start := (pre.length : Int) } := by
    unfold zip_get_next_entry
    rw [hclose fuel hT]
    simp only [hscan]
  rw [read_header_entry E src pre post e zq fp1 hsrc hwf hfl] at hadv
  exact ⟨_, zq.filename, hfl, hadv, rfl, rfl, rfl, rfl, rfl, rfl⟩

theorem synced_of_consumed (E : InflateEngine) (src : List Byte) (T : Nat) (zp : ZipParser)
    (off : Nat) (hc : zp.consumed = true) (hfp : zp.fp = off)
    (hfl : zp.filename.length = 256) : Synced E src T zp off := by
  refine ⟨zp, hfp, hfl, ?_⟩
  intro fuel _
  simp only [close_pending, hc, Bool.true_eq_false, false_and, if_false]

theorem synced_zip_open (E : InflateEngine) (src : List Byte) (T : Nat) :
    Synced E src T zip_open 0 := by
  refine ⟨zip_open, rfl, List.length_replicate _ _, ?_⟩
  intro fuel _
  unfold close_pending
  rw [if_neg]
  intro h
  exact h.2 rfl

theorem payload_present (src pre post : List Byte) (e : Entry)
    (hsrc : src = pre ++ (e.bytes ++ post)) (hl : e.header.length = 30) :
    (src.drop (pre.length + 30 + e.name.length + e.extra.length)).take e.payload.length
      = e.payload := by
  have h1 : src = (pre ++ e.header ++ e.name ++ e.extra) ++ (e.payload ++ post) := by
    rw [hsrc]; unfold Entry.bytes; simp only [List.append_assoc]
  have h2 : (pre ++ e.header ++ e.name ++ e.extra).length
      = pre.length + 30 + e.name.length + e.extra.length := by
    simp only [List.length_append, hl]
  rw [h1, List.drop_left' h2, List.take_left' rfl]

theorem entry_bytes_length (e : Entry) (hl : e.header.length = 30) :
    e.bytes.length = 30 + e.name.length + e.extra.length + e.payload.length := by
  unfold Entry.bytes
  simp only [List.length_append, hl]
  omega

/-- Closing a well-formed entry that was not extracted leaves the source just
after its payload. -/
theorem close_entry_on_entry (E : InflateEngine) (src pre post : List Byte) (e : Entry)
    (zp : ZipParser) (fuel : Nat) (hsrc : src = pre ++ (e.bytes ++ post))
    (hwf : e.WellFormed E) (hfuel : e.cost ≤ fuel)
    (hcomp : zp.compression = (decode_lfh e.header).compression)
    (hcs : zp.comp_size = e.payload.length)
    (hds : zp.data_start = ((pre.length + 30 + e.name.length + e.extra.length : Nat) : Int)) :
    close_entry E src fuel zp =
      Run.ret (reset_entry { zp with fp := pre.length + e.bytes.length }) := by
  have hbl := entry_bytes_length e hwf.header_length
  have hpos : pre.length + 30 + e.name.length + e.extra.length + e.payload.length
      = pre.length + e.bytes.length := by omega
  rcases hwf.method with ⟨hm, _⟩ | ⟨hm, hdec⟩
  · have hne : COMPRESSION_STORE ≠ COMPRESSION_DEFLATE := by decide
    have hc : fseek_set zp.fp
        (((pre.length + 30 + e.name.length + e.extra.length : Nat) : Int)
          + ((e.payload.length : Nat) : Int)) = pre.length + e.bytes.length := by
      rw [← Nat.cast_add, fseek_set_cast, hpos]
    simp only [close_entry, hcomp, hm, hne, if_false, if_true, hcs, hds, hc]
  · have h := (deflate_decodes_runs E src (fun _ => 0) zp
      (pre.length + 30 + e.name.length + e.extra.length) e.payload
      (decode_lfh e.header).uncompressed_size fuel (by rw [hcomp, hm]) hds
      (payload_present src pre post e hsrc hwf.header_length) hdec hfuel).2
    obtain ⟨_, _, _, _, _, hc⟩ := h
    rw [hc, hpos]

/-- Extracting a well-formed entry succeeds and leaves the source just after
its payload, with `consumed` set. -/
theorem extract_on_entry (E : InflateEngine) (src pre post : List Byte) (e : Entry)
    (garbage : Nat → Byte) (zp : ZipParser) (fuel : Nat)
    (hsrc : src = pre ++ (e.bytes ++ post))
    (hwf : e.WellFormed E) (hfuel : e.cost ≤ fuel)
    (hcomp : zp.compression = (decode_lfh e.header).compression)
    (hcs : zp.comp_size = e.payload.length)
    (hds : zp.data_start = ((pre.length + 30 + e.name.length + e.extra.length : Nat) : Int)) :
    ∃ written, extract_current E src garbage fuel zp true =
      Run.ret (1, { zp with fp := pre.length + e.bytes.length, consumed := true }, written) := by
  have hbl := entry_bytes_length e hwf.header_length
  have hpos : pre.length + 30 + e.name.length + e.extra.length + e.payload.length
      = pre.length + e.bytes.length := by omega
  have hpres := payload_present src pre post e hsrc hwf.header_length
  rcases hwf.method with ⟨hm, _⟩ | ⟨hm, hdec⟩
  · have hlen : (fread src (pre.length + 30 + e.name.length + e.extra.length)
        zp.comp_size).length = e.payload.length := by
      unfold fread
      rw [hcs, hpres]
    refine ⟨store_buffer garbage
      (fread src (pre.length + 30 + e.name.length + e.extra.length) zp.comp_size) zp.comp_size, ?_⟩
    rw [extract_store E src garbage fuel zp _ (by rw [hcomp, hm]) hds, hlen, hpos]
  · have h := (deflate_decodes_runs E src garbage zp
      (pre.length + 30 + e.name.length + e.extra.length) e.payload
      (decode_lfh e.header).uncompressed_size fuel (by rw [hcomp, hm]) hds hpres hdec hfuel).1
    obtain ⟨r, _, _, _, _, _, hc⟩ := h
    exact ⟨r.written, by rw [hc, hpos]⟩

/-- Run of the driver over the entries that remain, from a parser in step. -/
theorem main_loop_visits (E : InflateEngine) (src : List Byte) (garbage : Nat → Byte)
    (can_open : List Byte → Bool) (T : Nat) (hopen : ∀ nm, can_open nm = true) :
    ∀ (es : List Entry) (pre tail : List Byte) (zp : ZipParser) (log : List Visit)
      (fuel : Nat),
      src = pre ++ (entries_bytes es ++ ([0x50, 0x4b, 0x01, 0x02] ++ tail)) →
      (∀ e ∈ es, e.WellFormed E ∧ (0 : Byte) ∉ e.name ∧ e.cost ≤ T) →
      Synced E src T zp pre.length →
      T + es.length + 2 ≤ fuel →
      visited (main_loop E src garbage can_open fuel zp log) =
        Run.ret (log.map (fun v => (v.header_start, v.z_name))
          ++ expected_visits pre.length es) := by
  intro es
  induction es with
  | nil =>
    intro pre tail zp log fuel hsrc _ hsync hfuel
    obtain ⟨f, rfl⟩ : ∃ f, fuel = f + 1 := ⟨fuel - 1, by omega⟩
    obtain ⟨zq, hfp, _, hclose⟩ := hsync
    have hsig : sig_at src pre.length = some CENTRAL_HEADER_SIGNATURE := by
      have h := sig_at_append_right pre ([0x50, 0x4b, 0x01, 0x02] ++ tail) 0
      rw [Nat.add_zero] at h
      rw [hsrc]
      simp only [entries_bytes, List.nil_append]
      rw [h]
      show sig_at (0x50 :: 0x4b :: 0x01 :: 0x02 :: tail) 0 = _
      rw [sig_at_window]
      decide
    simp only [List.length_nil] at hfuel
    obtain ⟨fp1, hscan⟩ := scan_first_signature src pre.length CENTRAL_HEADER_SIGNATURE hsig
      (by decide) f zq (by omega) (by intro p v1 hp hp2; omega) (by omega)
    rw [if_neg (by decide)] at hscan
    have hadv : zip_get_next_entry E src f zp = Run.ret (0, { zq with fp := fp1 }) := by
      unfold zip_get_next_entry
      rw [hclose f (by omega)]
      simp only [hscan]
    unfold main_loop
    simp only [hadv, visited, expected_visits, List.append_nil]
  | cons e es ih =>
    intro pre tail zp log fuel hsrc hall hsync hfuel
    obtain ⟨f, rfl⟩ : ∃ f, fuel = f + 1 := ⟨fuel - 1, by omega⟩
    simp only [List.length_cons] at hfuel
    obtain ⟨hwf, h0, hcost⟩ := hall e (List.mem_cons_self _ _)
    have hsrc1 : src = pre ++ (e.bytes ++ (entries_bytes es ++ ([0x50, 0x4b, 0x01, 0x02] ++ tail))) := by
      rw [hsrc]; simp only [entries_bytes, List.append_assoc]
    have hsrc2 : src = (pre ++ e.bytes)
        ++ (entries_bytes es ++ ([0x50, 0x4b, 0x01, 0x02] ++ tail)) := by
      rw [hsrc1]; simp only [List.append_assoc]
    have hbl := entry_bytes_length e hwf.header_length
    obtain ⟨zp1, fn, hfn, hadv, hfp1, hfile, hcs, hcomp, hds, hhs⟩ :=
      advance_onto_entry E src pre _ e zp T f hsrc1 hwf hsync (by omega) (by omega)
    have hname : c_str (record_tail zp1) = e.name :=
      c_str_record_tail zp1 fn e.name hfn hwf.name_le h0 hfile
    have hfl : zp1.filename.length = 256 := by
      rw [hfile]
      exact store_name_length fn e.name hfn (by have := hwf.name_le; omega) e.name.length
    have hrest : ∀ e1 ∈ es, e1.WellFormed E ∧ (0 : Byte) ∉ e1.name ∧ e1.cost ≤ T :=
      fun e1 h1 => hall e1 (List.mem_cons_of_mem _ h1)
    have hne : e.name ≠ [] := by
      intro hn
      have := hwf.name_pos
      rw [hn] at this
      simp at this
    obtain ⟨last, hlast⟩ : ∃ last, e.name.getLast? = some last := by
      rw [List.getLast?_eq_getLast _ hne]
      exact ⟨_, rfl⟩
    unfold main_loop
    simp only [hadv, hname, hlast]
    by_cases hdir : last = 0x2f
    · -- a directory entry: nothing is extracted, the payload is empty
      have hpay : e.payload = [] := hwf.directory (by rw [hlast, hdir])
      rw [if_pos hdir]
      have hsync1 : Synced E src T zp1 (pre ++ e.bytes).length := by
        cases hc : zp1.consumed with
        | true =>
          apply synced_of_consumed _ _ _ _ _ hc _ hfl
          rw [hfp1]
          simp only [List.length_append, hbl, hpay, List.length_nil]
          omega
        | false =>
          refine ⟨reset_entry { zp1 with fp := pre.length + e.bytes.length }, ?_, ?_, ?_⟩
          · simp only [reset_entry, List.length_append]
          · simp only [reset_entry, List.length_replicate]
          · intro fuel1 hf1
            have hhs1 : zp1.header_start ≠ -1 := by rw [hhs]; omega
            simp only [close_pending, hc, true_and, ne_eq, hhs1, not_false_eq_true, if_true]
            exact close_entry_on_entry E src pre _ e zp1 fuel1 hsrc1 hwf (by omega) hcomp hcs hds
      rw [ih (pre ++ e.bytes) tail _ _ f hsrc2 hrest hsync1 (by omega)]
      simp only [List.map_append, List.map_cons, List.map_nil, expected_visits,
        List.append_assoc, List.singleton_append, List.length_append, hhs]
    · rw [if_neg hdir, hopen]
      obtain ⟨written, hext⟩ := extract_on_entry E src pre _ e garbage zp1 f hsrc1 hwf
        (by omega) hcomp hcs hds
      simp only [hext]
      rw [ih (pre ++ e.bytes) tail
        { zp1 with fp := pre.length + e.bytes.length, consumed := true } _ f hsrc2 hrest
        (synced_of_consumed E src T _ _ rfl (by simp only [List.length_append]) hfl) (by omega)]
      simp only [List.map_append, List.map_cons, List.map_nil, expected_visits,
        List.append_assoc, List.singleton_append, List.length_append, hhs]

theorem expected_visits_length (es : List Entry) : ∀ off : Nat,
    (expected_visits off es).length = es.length := by
  induction es with
  | nil => intro _; rfl
  | cons e es ih => intro off; simp only [expected_visits, List.length_cons, ih]

theorem cost_le_sum (es : List Entry) (e : Entry) (h : e ∈ es) :
    e.cost ≤ (es.map Entry.cost).sum := by
  induction es with
  | nil => cases h
  | cons a es ih =>
    simp only [List.map_cons, List.sum_cons]
    rcases List.mem_cons.mp h with h1 | h1
    · subst h1; omega
    · have := ih h1; omega

/-- C7 (fails as stated): names are C strings to the driver.  Over the archive
of `entries_nul_name` (one well-formed entry named `a` NUL) the driver reports
the name `a`; over the archive of `entries_directory_lookalike` (two
well-formed entries) the second name `d/` NUL reads as the directory `d/`, the
entry is not extracted, and the driver obtains three successful advances, the
third at offset 65 inside the second payload. -/
theorem driver_misreads_names_with_nul :
    (∀ e ∈ entries_nul_name, e.WellFormed toy) ∧
    expected_visits 0 entries_nul_name = [(0, [0x61, 0x00])] ∧
    visited (main_loop toy (archive_of entries_nul_name []) heap_aa (fun _ => true) 10
      zip_open []) = Run.ret [(0, [0x61])] ∧
    (∀ e ∈ entries_directory_lookalike, e.WellFormed toy) ∧
    expected_visits 0 entries_directory_lookalike = [(0, [0x61]), (32, [0x64, 0x2f, 0x00])] ∧
    visited (main_loop toy (archive_of entries_directory_lookalike []) heap_aa (fun _ => true) 10
      zip_open []) = Run.ret [(0, [0x61]), (32, [0x64, 0x2f]), (65, [0x7a])] := by
  refine ⟨?_, by decide, by decide!, ?_, by decide, by decide!⟩
  · intro e he
    simp only [entries_nul_name, List.mem_singleton] at he
    subst he
    exact ⟨by decide, by decide, by decide, by decide, by decide, by decide, by decide,
      by decide, Or.inl ⟨by decide, by decide⟩, by decide⟩
  · intro e he
    simp only [entries_directory_lookalike, List.mem_cons, List.mem_singleton,
      List.not_mem_nil, or_false] at he
    rcases he with he | he <;> subst he <;>
    exact ⟨by decide, by decide, by decide, by decide, by decide, by decide, by decide,
      by decide, Or.inl ⟨by decide, by decide⟩, by decide⟩

/-- C7 (amended): over an archive made of `n` well-formed local entries whose
names hold no NUL byte, followed by a central directory header signature, with
every output file opening, the driver loop of `main` (given the fuel
`fuel_for`) returns after exactly `n` successful advances, the `i`-th reporting
the header offset and the name of the `i`-th entry, whatever the payloads
hold. -/
theorem driver_visits_every_entry (E : InflateEngine) (entries : List Entry)
    (tail : List Byte) (garbage : Nat → Byte) (can_open : List Byte → Bool) (fuel : Nat)
    (h_wf : ∀ e ∈ entries, e.WellFormed E)
    (h_nul : ∀ e ∈ entries, (0 : Byte) ∉ e.name)
    (h_open : ∀ nm, can_open nm = true)
    (h_fuel : fuel_for entries ≤ fuel) :
    visited (main_loop E (archive_of entries tail) garbage can_open fuel zip_open [])
      = Run.ret (expected_visits 0 entries) ∧
    (expected_visits 0 entries).length = entries.length := by
  refine ⟨?_, expected_visits_length entries 0⟩
  have h := main_loop_visits E (archive_of entries tail) garbage can_open
    (entries.map Entry.cost).sum h_open entries [] tail zip_open [] fuel
    (by simp only [archive_of, List.nil_append])
    (fun e he => ⟨h_wf e he, h_nul e he, cost_le_sum entries e he⟩)
    (synced_zip_open E _ _)
    (by unfold fuel_for at h_fuel; exact h_fuel)
  simpa only [List.map_nil, List.nil_append, List.length_nil] using h

/-- Witness for C7 (amended): a directory, a stored file of 10 bytes and a
deflate file, both payloads holding 50 4b 03 04: three advances, at 0, 32 and 73. -/
theorem driver_visits_every_entry_witness :
    visited (main_loop toy (archive_of entries_three []) heap_aa (fun _ => true)
      (fuel_for entries_three) zip_open [])
      = Run.ret [(0, [0x64, 0x2f]), (32, [0x61]), (73, [0x62])] := by
  have hwf : ∀ e ∈ entries_three, e.WellFormed toy := by
    intro e he
    simp only [entries_three, List.mem_cons, List.mem_singleton, List.not_mem_nil,
      or_false] at he
    rcases he with he | he | he <;> subst he
    · exact ⟨by decide, by decide, by decide, by decide, by decide, by decide, by decide,
        by decide, Or.inl ⟨by decide, by decide⟩, by decide⟩
    · exact ⟨by decide, by decide, by decide, by decide, by decide, by decide, by decide,
        by decide, Or.inl ⟨by decide, by decide⟩, by decide⟩
    · exact ⟨by decide, by decide, by decide, by decide, by decide, by decide, by decide,
        by decide, Or.inr ⟨by decide,
          toy_decodes 0x04 [0x50, 0x4b, 0x03, 0x04] (by decide)⟩, by decide⟩
  have hnul : ∀ e ∈ entries_three, (0 : Byte) ∉ e.name := by decide
  have h := (driver_visits_every_entry toy entries_three [] heap_aa (fun _ => true)
    (fuel_for entries_three) hwf hnul (fun _ => rfl) (le_refl _)).1
  rw [h]
  decide

/-! ## The header decoder -/

/-- C13 (fails on the code): the header of `archive_name_257` declares a name
of 257 bytes, all present in the archive.  `zip_get_next_entry` returns 1 with
`name_length = 257`, but the array `filename` holds 256 of the name bytes; the
last one was written on `comp_size`, which the function then assigns, so the
name read at `filename` is 256 bytes long. -/
theorem name_of_257_bytes_is_cut_to_256 :
    (decode_lfh (fread archive_name_257 0 30)).name_length = 257 ∧
    fread archive_name_257 30 257 = List.replicate 257 0x61 ∧
    observe_name (zip_get_next_entry toy archive_name_257 1 zip_open)
      = Run.ret (1, 257, List.replicate 256 0x61, List.replicate 256 0x61) := by
  refine ⟨by decide, by decide!, by decide!⟩

/-- With a declared length of 256 the name bytes fill `filename` and the NUL is
stored on the first byte of `comp_size`, which the function then assigns: the
call returns 1. -/
theorem name_of_256_bytes_fills_filename :
    (decode_lfh (fread archive_name_256 0 30)).name_length = 256 ∧
    observe_name (zip_get_next_entry toy archive_name_256 1 zip_open)
      = Run.ret (1, 256, List.replicate 256 0x61, List.replicate 256 0x61) := by
  refine ⟨by decide, by decide!⟩

/-- For a declared length up to 255 with the name bytes present, the first
`name_length` bytes of `filename` are the bytes that follow the fixed header,
whatever they are, NUL bytes included. -/
theorem filename_prefix_is_name (E : InflateEngine) (src : List Byte) (fuel : Nat)
    (zp0 zp : ZipParser)
    (h_adv : zip_get_next_entry E src fuel zp0 = Run.ret (1, zp))
    (h_fit : zp.name_length ≤ 255)
    (h_name : zp.header_start.toNat + 30 + zp.name_length ≤ src.length) :
    zp.name_length = (decode_lfh (fread src zp.header_start.toNat 30)).name_length ∧
    zp.filename.take zp.name_length
      = (src.drop (zp.header_start.toNat + 30)).take zp.name_length := by
  obtain ⟨_, zq, o, ho, _, hr⟩ := get_next_ret_one_inv E src fuel zp0 zp 1 h_adv (by decide)
  have hseek : fseek_set zq.fp zq.header_start = o := by rw [ho, fseek_set_cast]
  have hhs : zp.header_start = (o : Int) := by
    rw [hr.header_start (by rw [← hr.name_length]; unfold OFFSET_HEADER_START; omega), ho]
  have hnl := hr.name_length
  have hfile := hr.filename
  rw [hseek] at hnl hfile
  rw [hhs] at h_name ⊢
  simp only [Int.toNat_ofNat] at h_name ⊢
  rw [← hnl] at hfile
  have hlen : (fread src (o + 30) zp.name_length).length = zp.name_length := by
    rw [fread_length]; omega
  refine ⟨hnl, ?_⟩
  rw [hfile]
  unfold store_name FILENAME_SIZE
  rw [List.take_take, Nat.min_eq_left (by omega), List.set_take,
    List.take_append_of_le_length (by omega), List.take_of_length_le (by omega),
    List.set_eq_of_length_le (by omega)]
  rfl

/-- C14 (fails on the code): over `archive_descriptor_after_stored`, after the
first entry (uncompressed size 1) was extracted, advancing onto the second
entry, whose header has bit 3 set and declared sizes 0, leaves `comp_size = 0`
but `uncomp_size = 1`; without the extraction `close_entry` resets the record
and both are 0. -/
theorem descriptor_entry_keeps_stale_uncomp_size :
    observe_sizes (run_calls toy archive_descriptor_after_stored heap_aa 1
      [Call.advance, Call.extract true, Call.advance] zip_open) = Run.ret ([1, 1, 1], 0, 1) ∧
    observe_sizes (run_calls toy archive_descriptor_after_stored heap_aa 1
      [Call.advance, Call.advance] zip_open) = Run.ret ([1, 1], 0, 0) := by
  constructor <;> decide!

/-- C15 (fails on the code): the assertion compares the whole flags field with
8, so it fails for `flags = 8` only; the store header of
`archive_store_flags_0808` has bit 3 set together with bit 11, the assertion
holds and `zip_get_next_entry` returns 1. -/
theorem store_assertion_holds_with_descriptor_bit :
    (∀ flags : Nat, store_assertion flags = false ↔ flags = FLAG_DATA_DESCRIPTOR) ∧
    0x0808 &&& FLAG_DATA_DESCRIPTOR ≠ 0 ∧
    store_assertion 0x0808 = true ∧
    zip_get_next_entry toy archive_store_flags_0808 1 zip_open
      = Run.ret (1, on_flags_0808_entry) ∧
    on_flags_0808_entry.compression = COMPRESSION_STORE ∧
    on_flags_0808_entry.flags = 0x0808 := by
  refine ⟨?_, by decide, by decide, by decide!, rfl, rfl⟩
  intro flags
  simp [store_assertion]

/-- C17: when the scan reports a local file header (returns 1) and the 30
header bytes at `header_start` are read in full, the signature field of the
record read equals the local file header signature, so the header read does
not return 0. -/
theorem signature_revalidation_succeeds (src : List Byte) (fuel : Nat) (zp zq : ZipParser)
    (h_scan : zip_skip_until_next_entry src fuel zp = Run.ret (1, zq))
    (h_read : (fread src (fseek_set zq.fp zq.header_start) 30).length = 30) :
    (decode_lfh (fread src (fseek_set zq.fp zq.header_start) 30)).signature
      = LOCAL_HEADER_SIGNATURE ∧
    ∀ z, read_header src zq ≠ Run.ret (0, z) := by
  rcases scan_ret_inv src fuel zp zq 1 h_scan with ⟨h0, _⟩ | ⟨_, o, _, hs, hz⟩
  · exact absurd h0 (by decide)
  have hhs : zq.header_start = (o : Int) := by rw [hz]
  have hseek : fseek_set zq.fp zq.header_start = o := by rw [hhs, fseek_set_cast]
  rw [hseek] at h_read
  have hsig : (decode_lfh (fread src (fseek_set zq.fp zq.header_start) 30)).signature
      = LOCAL_HEADER_SIGNATURE := by
    rw [hseek]
    have h1 := sig_at_fread src o 30 0 (by omega)
    have h2 := sig_at_header (fread src o 30) [] h_read
    rw [List.append_nil] at h2
    rw [Nat.add_zero, hs, h2] at h1
    exact Option.some.inj h1
  refine ⟨hsig, ?_⟩
  intro z hz0
  have hl : ¬ ((fread src (fseek_set zq.fp zq.header_start) 30).length ≠ 30) := by
    rw [hseek]; exact not_not.mpr h_read
  unfold read_header at hz0
  simp only [hl, if_false, hsig, ne_eq, not_true_eq_false] at hz0
  split_ifs at hz0 <;> simp at hz0

/-- Witness for C17: the scan of `archive_one_stored` from 0 reports the header
at 0, and the 30 bytes there are read. -/
theorem signature_revalidation_succeeds_witness :
    zip_skip_until_next_entry archive_one_stored 1 zip_open
      = Run.ret (1, { zip_open with fp := 39, header_start := 0 }) ∧
    (decode_lfh (fread archive_one_stored
      (fseek_set 39 0) 30)).signature = LOCAL_HEADER_SIGNATURE := by
  have hscan : zip_skip_until_next_entry archive_one_stored 1 zip_open
      = Run.ret (1, { zip_open with fp := 39, header_start := 0 }) := by decide!
  exact ⟨hscan, (signature_revalidation_succeeds archive_one_stored 1 zip_open
    { zip_open with fp := 39, header_start := 0 } hscan (by decide)).1⟩

/-! ## Windows of the scan loop -/

/-- C19 (fails on the code): on a chunk of one byte the bound `read_size - 3`
wraps to 2^64 - 2, the loop runs and its first window, bytes 0..3 of the
buffer, is not inside the one byte read. -/
theorem scan_window_outside_short_chunk :
    (fread [0x00] 0 BUFFER_SIZE).length = 1 ∧
    scan_bound 1 = 18446744073709551614 ∧
    scan_for [0x00] 0 (scan_bound 1) = Hit.outside ∧
    zip_skip_until_next_entry [0x00] 1 zip_open = Run.undef := by
  refine ⟨by decide, by decide, by decide, by decide⟩

/-! ## Extraction and the state of the parser -/

/-- C16 (fails as stated): `extract_current` returns 1 on a fresh parser,
before any `zip_get_next_entry` (it writes nothing), and returns 1 again when
called a second time on the entry of `archive_one_stored`. -/
theorem extract_succeeds_without_header_found :
    extract_current toy archive_one_stored heap_aa 1 zip_open true
      = Run.ret (1, { zip_open with consumed := true }, []) ∧
    observe (run_calls toy archive_one_stored heap_aa 1
      [Call.advance, Call.extract true, Call.extract true] zip_open)
      = Run.ret ([1, 1, 1], 0, 31, 35) := by
  constructor <;> decide!

/-- C16 (amended): `extract_current` returns 1 exactly when the output file
opens and the method of the record is store, or deflate with the decoding loop
reaching stream-end; nothing else of the parser state is looked at. -/
theorem extract_success_depends_on_method_only (E : InflateEngine) (src : List Byte)
    (garbage : Nat → Byte) (fuel : Nat) (zp : ZipParser) (out_ok : Bool) :
    (∃ zp1 written, extract_current E src garbage fuel zp out_ok = Run.ret (1, zp1, written)) ↔
      out_ok = true ∧
      (zp.compression = COMPRESSION_STORE ∨
        (zp.compression = COMPRESSION_DEFLATE ∧
          ∃ r : InflateRun E.State,
            extract_outer E src fuel
              (fseek_set (fseek_set zp.fp zp.data_start) zp.data_start) (inflateInit2 E) 0 []
              = Run.ret r ∧ r.ret = ZRet.Z_STREAM_END)) := by
  have hne : COMPRESSION_DEFLATE ≠ COMPRESSION_STORE := by decide
  cases out_ok with
  | false =>
    simp only [extract_current, if_true, Run.ret.injEq, Prod.mk.injEq, zero_ne_one, false_and,
      exists_false, Bool.false_eq_true]
  | true =>
    by_cases hs : zp.compression = COMPRESSION_STORE
    · simp only [extract_current, Bool.true_eq_false, if_false, hs, if_true, true_or, and_true,
        Run.ret.injEq, Prod.mk.injEq, true_and, exists_and_left, exists_eq', and_self]
    · by_cases hd : zp.compression = COMPRESSION_DEFLATE
      · simp only [extract_current, Bool.true_eq_false, if_false, hd, hne, if_true, true_and,
          false_or]
        cases hrun : extract_outer E src fuel
            (fseek_set (fseek_set zp.fp zp.data_start) zp.data_start) (inflateInit2 E) 0 [] with
        | ret r =>
          by_cases he : r.ret = ZRet.Z_STREAM_END
          · simp only [he, if_true, Run.ret.injEq, Prod.mk.injEq, true_and, exists_and_left,
              exists_eq', exists_eq_left', and_self]
          · simp only [he, if_false, Run.ret.injEq, Prod.mk.injEq, zero_ne_one, false_and,
              exists_false, false_iff, not_exists, not_and]
            intro r1 h1
            rw [← h1]
            exact he
        | undef => simp
        | abort => simp
        | timeout => simp
      · simp only [extract_current, Bool.true_eq_false, if_false, hs, hd, Run.ret.injEq,
          Prod.mk.injEq, zero_ne_one, false_and, exists_false, or_self, and_false]

/-- C18: for a record whose method is store (the payload being the `comp_size`
bytes at `data_start`) or deflate (the payload being decoded to stream-end by
the engine), with the payload present in the source, `close_entry` and
`extract_current` (output file opened) both return and both leave the source
at `data_start` plus the length of the payload. -/
theorem skip_and_extract_leave_same_position (E : InflateEngine) (src : List Byte)
    (garbage : Nat → Byte) (zp : ZipParser) (d : Nat) (payload : List Byte) (usize fuel : Nat)
    (h_ds : zp.data_start = (d : Int))
    (h_present : (src.drop d).take payload.length = payload)
    (h_method : (zp.compression = COMPRESSION_STORE ∧ zp.comp_size = payload.length) ∨
      (zp.compression = COMPRESSION_DEFLATE ∧ Decodes E payload usize))
    (h_fuel : payload.length + usize + 2 ≤ fuel) :
    ∃ (zc ze : ZipParser) (written : List Byte),
      close_entry E src fuel zp = Run.ret zc ∧
      extract_current E src garbage fuel zp true = Run.ret (1, ze, written) ∧
      zc.fp = d + payload.length ∧ ze.fp = d + payload.length := by
  rcases h_method with ⟨hm, hcs⟩ | ⟨hm, hdec⟩
  · have hne : COMPRESSION_STORE ≠ COMPRESSION_DEFLATE := by decide
    have hc : fseek_set zp.fp ((d : Int) + ((payload.length : Nat) : Int))
        = d + payload.length := by
      rw [← Nat.cast_add, fseek_set_cast]
    have hlen : (fread src d zp.comp_size).length = payload.length := by
      unfold fread
      rw [hcs, h_present]
    refine ⟨reset_entry { zp with fp := d + payload.length },
      { zp with fp := d + payload.length, consumed := true },
      store_buffer garbage (fread src d zp.comp_size) zp.comp_size, ?_, ?_, rfl, rfl⟩
    · simp only [close_entry, hm, hne, if_false, if_true, hcs, h_ds, hc]
    · rw [extract_store E src garbage fuel zp d hm h_ds, hlen]
  · obtain ⟨⟨r, _, _, _, _, _, he⟩, ⟨_, _, _, _, _, hc⟩⟩ :=
      deflate_decodes_runs E src garbage zp d payload usize fuel hm h_ds h_present hdec h_fuel
    exact ⟨_, _, r.written, hc, he, rfl, rfl⟩

/-- Witness for C18: the stored entry of `archive_one_stored` (data at 31, 4
payload bytes): skipping and extracting both end at 35. -/
theorem skip_and_extract_leave_same_position_witness :
    ∃ (zc ze : ZipParser) (written : List Byte),
      close_entry toy archive_one_stored 6 (on_entry [0x61] 0 31 0 4 4) = Run.ret zc ∧
      extract_current toy archive_one_stored heap_aa 6 (on_entry [0x61] 0 31 0 4 4) true
        = Run.ret (1, ze, written) ∧
      zc.fp = 31 + 4 ∧ ze.fp = 31 + 4 :=
  skip_and_extract_leave_same_position toy archive_one_stored heap_aa
    (on_entry [0x61] 0 31 0 4 4) 31 [0x50, 0x4b, 0x03, 0x04] 0 6 rfl (by decide)
    (Or.inl ⟨rfl, rfl⟩) (by decide)

/-! ## Direction of the scan -/

theorem close_pending_forward (E : InflateEngine) (src : List Byte) (fuel : Nat)
    (zp zq : ZipParser) (P : Nat) (hA : Ahead zp P)
    (h : close_pending E src fuel zp = Run.ret zq) : P ≤ zq.fp := by
  obtain ⟨hfp, hrec⟩ := hA
  unfold close_pending at h
  split_ifs at h with hc
  · rcases hrec with ⟨hs, _⟩ | hds
    · exact absurd hs hc.2
    · obtain ⟨d, hd⟩ := Int.eq_ofNat_of_zero_le (by omega : 0 ≤ zp.data_start)
      have hPd : P ≤ d := by rw [hd] at hds; exact_mod_cast hds
      by_cases hdef : zp.compression = COMPRESSION_DEFLATE
      · rw [close_deflate E src fuel zp d hdef hd] at h
        split at h
        · cases h
          simp only [reset_entry]
          omega
        · cases h
        · cases h
        · cases h
      · by_cases hst : zp.compression = COMPRESSION_STORE
        · have hc2 : fseek_set zp.fp ((d : Int) + ((zp.comp_size : Nat) : Int))
              = d + zp.comp_size := by
            rw [← Nat.cast_add, fseek_set_cast]
          simp only [close_entry, hdef, hst, if_false, if_true, hd, hc2] at h
          cases h
          simp only [reset_entry]
          omega
        · simp only [close_entry, hdef, hst, if_false] at h
          cases h
          simp only [reset_entry]
          exact hfp
  · cases h
    exact hfp

theorem get_next_forward (E : InflateEngine) (src : List Byte) (fuel : Nat)
    (zp zq zp1 : ZipParser) (r : Nat)
    (hcl : close_pending E src fuel zp = Run.ret zq)
    (h : zip_get_next_entry E src fuel zp = Run.ret (r, zp1)) (hr : r ≠ 0) :
    zq.fp ≤ zp1.fp ∧ zp1.data_start = (zp1.fp : Int) := by
  unfold zip_get_next_entry at h
  rw [hcl] at h
  simp only at h
  split at h
  · cases h; exact absurd rfl hr
  · rename_i r1 zs hne hscan
    rcases scan_ret_inv src fuel zq zs _ hscan with ⟨h0, _⟩ | ⟨_, o, ho, _, hz⟩
    · exact absurd h0 hne
    · obtain ⟨_, hread⟩ := read_header_inv src zs zp1 r h hr
      have hhs : zs.header_start = (o : Int) := by rw [hz]
      have hfp := hread.fp
      rw [hhs, fseek_set_cast] at hfp
      exact ⟨by omega, hread.data_start⟩
  · cases h
  · cases h
  · cases h

theorem extract_ahead (E : InflateEngine) (src : List Byte) (garbage : Nat → Byte)
    (fuel : Nat) (zp zp1 : ZipParser) (out_ok : Bool) (r P : Nat) (w : List Byte)
    (hA : Ahead zp P)
    (h : extract_current E src garbage fuel zp out_ok = Run.ret (r, zp1, w)) :
    Ahead zp1 P := by
  obtain ⟨hfp, hrec⟩ := hA
  cases out_ok with
  | false =>
    simp only [extract_current, if_true, Run.ret.injEq, Prod.mk.injEq] at h
    obtain ⟨_, hz, _⟩ := h
    subst hz
    exact ⟨hfp, hrec⟩
  | true =>
    rcases hrec with ⟨hs, hneg, hst, hcs⟩ | hds
    · have hseek : fseek_set zp.fp zp.data_start = zp.fp := by
        unfold fseek_set; rw [if_pos hneg]
      simp only [extract_current, Bool.true_eq_false, if_false, hseek, hst, if_true, hcs,
        Run.ret.injEq, Prod.mk.injEq] at h
      obtain ⟨_, hz, _⟩ := h
      subst hz
      refine ⟨?_, Or.inl ⟨hs, hneg, rfl, rfl⟩⟩
      simp only
      omega
    · obtain ⟨d, hd⟩ := Int.eq_ofNat_of_zero_le (by omega : 0 ≤ zp.data_start)
      have hPd : P ≤ d := by rw [hd] at hds; exact_mod_cast hds
      by_cases hst : zp.compression = COMPRESSION_STORE
      · rw [extract_store E src garbage fuel zp d hst hd] at h
        simp only [Run.ret.injEq, Prod.mk.injEq] at h
        obtain ⟨_, hz, _⟩ := h
        subst hz
        exact ⟨by simp only; omega, Or.inr (by simp only; exact hds)⟩
      · by_cases hdef : zp.compression = COMPRESSION_DEFLATE
        · rw [extract_deflate E src garbage fuel zp d hdef hd] at h
          split at h
          · simp only [Run.ret.injEq, Prod.mk.injEq] at h
            obtain ⟨_, hz, _⟩ := h
            subst hz
            exact ⟨by simp only; omega, Or.inr (by simp only; exact hds)⟩
          · cases h
          · cases h
          · cases h
        · simp only [extract_current, Bool.true_eq_false, if_false, hst, hdef, hd,
            fseek_set_cast, Run.ret.injEq, Prod.mk.injEq] at h
          obtain ⟨_, hz, _⟩ := h
          subst hz
          exact ⟨by simp only; omega, Or.inr (by simp only; exact_mod_cast hPd)⟩

/-- Scan starts of a run that stops at exhaustion, from a parser whose record
lies ahead of `P`: all at or after `P`, and in non-decreasing order. -/
theorem scan_starts_forward (E : InflateEngine) (src : List Byte) (garbage : Nat → Byte)
    (fuel : Nat) : ∀ (calls : List Call) (zp : ZipParser) (P : Nat), Ahead zp P →
    stops_at_exhaustion E src garbage fuel calls zp = true →
    (∀ x ∈ scan_starts E src garbage fuel calls zp, P ≤ x) ∧
    List.Pairwise (fun a b => a ≤ b) (scan_starts E src garbage fuel calls zp) := by
  intro calls
  induction calls with
  | nil =>
    intro zp P _ _
    simp [scan_starts]
  | cons c rest ih =>
    intro zp P hA hstop
    cases c with
    | advance =>
      unfold scan_starts
      unfold stops_at_exhaustion at hstop
      cases hcl : close_pending E src fuel zp with
      | ret zq =>
        have hP := close_pending_forward E src fuel zp zq P hA hcl
        simp only
        cases hadv : zip_get_next_entry E src fuel zp with
        | ret a =>
          obtain ⟨r, zp1⟩ := a
          rw [hadv] at hstop
          cases r with
          | zero =>
            simp only [List.isEmpty_iff] at hstop
            subst hstop
            simp [scan_starts, hP]
          | succ n =>
            simp only at hstop
            obtain ⟨hf, hd⟩ := get_next_forward E src fuel zp zq zp1 (n + 1) hcl hadv
              (Nat.succ_ne_zero n)
            obtain ⟨h1, h2⟩ := ih zp1 zq.fp ⟨hf, Or.inr (by rw [hd]; exact_mod_cast hf)⟩ hstop
            simp only
            refine ⟨?_, List.pairwise_cons.mpr ⟨h1, h2⟩⟩
            intro x hx
            rcases List.mem_cons.mp hx with hx | hx
            · rw [hx]; exact hP
            · exact le_trans hP (h1 x hx)
        | undef => simp [hP]
        | abort => simp [hP]
        | timeout => simp [hP]
      | undef => simp
      | abort => simp
      | timeout => simp
    | extract out_ok =>
      unfold scan_starts
      unfold stops_at_exhaustion at hstop
      cases hext : extract_current E src garbage fuel zp out_ok with
      | ret a =>
        obtain ⟨r, zp1, w⟩ := a
        rw [hext] at hstop
        simp only at hstop ⊢
        exact ih zp1 P (extract_ahead E src garbage fuel zp zp1 out_ok r P w hA hext) hstop
      | undef => simp
      | abort => simp
      | timeout => simp

/-- C11 (fails as stated): over `archive_one_stored`, the calls advance,
extract, advance, advance, extract, advance enter the scan at 0, 35, 39 and
then 35 again: once the archive is exhausted, `extract_current` seeks back to
the data of the last entry. -/
theorem scan_start_decreases_after_exhaustion :
    observe (run_calls toy archive_one_stored heap_aa 1
      [Call.advance, Call.extract true, Call.advance, Call.advance, Call.extract true,
       Call.advance] zip_open) = Run.ret ([1, 1, 0, 0, 1, 0], 0, 31, 39) ∧
    scan_starts toy archive_one_stored heap_aa 1
      [Call.advance, Call.extract true, Call.advance, Call.advance, Call.extract true,
       Call.advance] zip_open = [0, 35, 39, 35] := by
  constructor <;> decide!

/-- C11 (amended): over every sequence of `zip_get_next_entry` and
`extract_current` calls on a fresh parser in which no call is made after
`zip_get_next_entry` has returned 0, the offsets at which the signature scan is
entered never decrease. -/
theorem scan_starts_never_decrease (E : InflateEngine) (src : List Byte)
    (garbage : Nat → Byte) (fuel : Nat) (calls : List Call)
    (h_stop : stops_at_exhaustion E src garbage fuel calls zip_open = true) :
    List.Pairwise (fun a b => a ≤ b) (scan_starts E src garbage fuel calls zip_open) :=
  (scan_starts_forward E src garbage fuel calls zip_open 0
    ⟨Nat.le_refl 0, Or.inl ⟨rfl, by decide, rfl, rfl⟩⟩ h_stop).2

/-- Witness for C11 (amended): over `archive_signature_in_payload` the driver's
calls (advance and extract three times, then the advance that returns 0) enter
the scan at 0, 32, 93 and 124. -/
theorem scan_starts_never_decrease_witness :
    observe (run_calls toy archive_signature_in_payload heap_aa 2
      [Call.advance, Call.extract true, Call.advance, Call.extract true, Call.advance,
       Call.extract true, Call.advance] zip_open)
      = Run.ret ([1, 1, 1, 1, 1, 1, 0], 93, 124, 128) ∧
    scan_starts toy archive_signature_in_payload heap_aa 2
      [Call.advance, Call.extract true, Call.advance, Call.extract true, Call.advance,
       Call.extract true, Call.advance] zip_open
      = [0, 32, 93, 124] ∧
    List.Pairwise (fun a b => a ≤ b)
      (scan_starts toy archive_signature_in_payload heap_aa 2
        [Call.advance, Call.extract true, Call.advance, Call.extract true, Call.advance,
         Call.extract true, Call.advance] zip_open) :=
  ⟨by decide!, by decide!, scan_starts_never_decrease toy archive_signature_in_payload heap_aa 2
    [Call.advance, Call.extract true, Call.advance, Call.extract true, Call.advance,
     Call.extract true, Call.advance]
    (by decide!)⟩

end ExtractIPA
